import Mathlib

/-!
Verification of the `grids` constraint-propagation puzzle solver.

This file is a shallow embedding of the solver's core (src/placements.py,
src/constraints/region.py, src/constraints/permutations.py,
src/constraints/numbers.py, src/puzzle.py) into Lean, together with theorems
settling the specification claims.

Modelling conventions:
* A Python `SymbolSet` (a `set` of strings) is a `Finset String`.
* `SymbolSet.value()` returns an arbitrary member of the set; CPython's choice
  is deterministic but unspecified.  Every call site that the claims exercise
  reads it on a singleton set (guarded by `len(cell) == 1`) except
  `Puzzle.expandStars`; we fix the minimum element as the concrete resolution.
  `value()` on an empty set raises `StopIteration`, modelled as `Except.error`.
* Grids (`Placements.cells`) are `List (List (Finset String))`; locations are
  `Nat × Nat` pairs, as in the source.
* Python exceptions are modelled with `Except Unit`; logging, statistics and
  the technique/solution callbacks (which default to `None` and do not affect
  the grid or the constraint list) are omitted.
-/

deriving instance DecidableEq for Except

namespace Grids

abbrev Symbol := String

abbrev SymbolSet := Finset String

abbrev Loc := Nat × Nat

/-! #### A canonical enumeration of a symbol set

Iterating a CPython `set` yields its elements in an arbitrary (but
per-process deterministic) order.  We fix a concrete resolution: elements are
enumerated in increasing lexicographic order of their character codes.  The
order is implemented from scratch so that it evaluates inside the kernel. -/

/-- Lexicographic comparison of character lists by character code. -/
def charListLe : List Char → List Char → Bool
  | [], _ => true
  | _ :: _, [] => false
  | a :: as, b :: bs =>
    if a.toNat < b.toNat then true
    else if b.toNat < a.toNat then false
    else charListLe as bs

/-- The induced order on strings. -/
def strRel (a b : String) : Prop := charListLe a.data b.data = true

instance : DecidableRel strRel := fun a b =>
  inferInstanceAs (Decidable (charListLe a.data b.data = true))

instance : IsRefl String strRel := by
  constructor
  intro a
  show charListLe a.data a.data = true
  induction a.data with
  | nil => rfl
  | cons c cs ih => simp [charListLe, ih]

instance : IsTrans String strRel := by
  constructor
  have key : ∀ x y z : List Char,
      charListLe x y = true → charListLe y z = true → charListLe x z = true := by
    intro x
    induction x with
    | nil => intro y z _ _; rfl
    | cons a as ih =>
      intro y z hxy hyz
      match y, z with
      | [], _ => simp [charListLe] at hxy
      | _ :: _, [] => simp [charListLe] at hyz
      | b :: bs, c :: cs =>
        simp only [charListLe] at hxy hyz ⊢
        by_cases h1 : a.toNat < b.toNat <;> by_cases h2 : b.toNat < c.toNat <;>
          simp [h1, h2] at hxy hyz ⊢
        · exact Or.inl (Nat.lt_trans h1 h2)
        · obtain ⟨h3, h4⟩ := hyz
          refine Or.inl ?_
          omega
        · obtain ⟨h3, h4⟩ := hxy
          refine Or.inl ?_
          omega
        · obtain ⟨h3, h4⟩ := hxy
          obtain ⟨h5, h6⟩ := hyz
          refine Or.inr ⟨by omega, ?_⟩
          exact ih bs cs h4 h6
  exact fun a b c => key a.data b.data c.data

instance : IsAntisymm String strRel := by
  constructor
  have key : ∀ x y : List Char,
      charListLe x y = true → charListLe y x = true → x = y := by
    intro x
    induction x with
    | nil =>
      intro y _ hyx
      cases y with
      | nil => rfl
      | cons b bs => simp [charListLe] at hyx
    | cons a as ih =>
      intro y hxy hyx
      match y with
      | [] => simp [charListLe] at hxy
      | b :: bs =>
        simp only [charListLe] at hxy hyx
        rcases Nat.lt_trichotomy a.toNat b.toNat with h | h | h
        · rw [if_neg (by omega), if_pos h] at hyx
          exact absurd hyx (by decide)
        · rw [if_neg (by omega), if_neg (by omega)] at hxy
          rw [if_neg (by omega), if_neg (by omega)] at hyx
          have hab : a = b := Char.eq_of_val_eq (UInt32.ext h)
          rw [hab, ih bs hxy hyx]
        · rw [if_neg (by omega), if_pos h] at hxy
          exact absurd hxy (by decide)
  intro a b hab hba
  have h : a.data = b.data := key a.data b.data hab hba
  cases a
  cases b
  exact congrArg String.mk h

instance : IsTotal String strRel := by
  constructor
  have key : ∀ x y : List Char, charListLe x y = true ∨ charListLe y x = true := by
    intro x
    induction x with
    | nil => intro y; exact Or.inl rfl
    | cons a as ih =>
      intro y
      match y with
      | [] => exact Or.inr rfl
      | b :: bs =>
        simp only [charListLe]
        rcases Nat.lt_trichotomy a.toNat b.toNat with h | h | h
        · exact Or.inl (by rw [if_pos h])
        · rcases ih bs with h' | h'
          · refine Or.inl ?_
            rw [if_neg (by omega), if_neg (by omega)]
            exact h'
          · refine Or.inr ?_
            rw [if_neg (by omega), if_neg (by omega)]
            exact h'
        · exact Or.inr (by rw [if_pos h])
  exact fun a b => key a.data b.data

/-- The canonical enumeration of a multiset of strings (ascending in
`strRel`); well-defined on the quotient since sorting is
permutation-invariant. -/
def sortedStrings (m : Multiset String) : List String :=
  Quot.liftOn m (fun l => l.insertionSort strRel) fun a b h =>
    List.eq_of_perm_of_sorted
      ((List.perm_insertionSort strRel a).trans
        (h.trans (List.perm_insertionSort strRel b).symm))
      (List.sorted_insertionSort strRel a)
      (List.sorted_insertionSort strRel b)

/-- The canonical enumeration of a symbol set. -/
def sortedSymbols (s : SymbolSet) : List Symbol := sortedStrings s.1

/-- `SymbolSet.value()` read on a (guarded) singleton set: the first element
of the canonical enumeration is the fixed resolution of CPython's
arbitrary-but-deterministic choice. -/
def value? (s : SymbolSet) : Option Symbol := (sortedSymbols s).head?

/-- `SymbolSet.value()` in a context where the set may be empty
(`next(itertools.islice(self, 1))` raises `StopIteration` on an empty set). -/
def valueE (s : SymbolSet) : Except Unit Symbol :=
  match (sortedSymbols s).head? with
  | some v => .ok v
  | none => .error ()

/-- The grid of `Placements`: a list of rows of candidate symbol sets,
plus the `changed` dirty flag (`Placements.cells`, `Placements.changed`).
The optional `onChange` hook defaults to `None`; see `setCellHook` for the
variant with the hook made explicit. -/
structure Placements where
  cells : List (List SymbolSet)
  changed : Bool
deriving DecidableEq

def rowAt (cells : List (List SymbolSet)) (r : Nat) : List SymbolSet :=
  cells.getD r []

/-- `Placements.at(location)`: the candidate set at a location
(call sites are in bounds; out of bounds we default to `∅`). -/
def cellAt (cells : List (List SymbolSet)) (l : Loc) : SymbolSet :=
  (rowAt cells l.1).getD l.2 ∅

/-- The assignment `self.cells[r][c] = new`. -/
def setAt (cells : List (List SymbolSet)) (l : Loc) (v : SymbolSet) :
    List (List SymbolSet) :=
  cells.set l.1 ((rowAt cells l.1).set l.2 v)

/-- `Placements.setCell(location, contents)` with `contents` already a set
(the `str` branch of the source wraps a single symbol into a singleton set;
call sites passing a `str` are embedded with an explicit singleton).
Returns the new grid and whether anything changed; the `onChange` hook is
`None` here. -/
def setCell (p : Placements) (l : Loc) (contents : SymbolSet) :
    Placements × Bool :=
  let new := contents
  let old := cellAt p.cells l
  if new ≠ old then
    ({ cells := setAt p.cells l new, changed := true }, true)
  else
    (p, false)

/-- The `(self, location, old, new)` argument tuple passed to the `onChange`
hook; `pre` records the grid contents at the moment of the call
(the hook fires before the mutation commits, so the cell still holds `old`). -/
structure ChangeEvent where
  pre : List (List SymbolSet)
  loc : Loc
  old : SymbolSet
  new : SymbolSet
deriving DecidableEq

/-- `Placements.setCell` with the `onChange` hook made explicit: `hook` is
whether `self.onChange` is set, and the returned list holds the hook
invocation (if any), carrying the pre-commit grid. -/
def setCellHook (hook : Bool) (p : Placements) (l : Loc) (contents : SymbolSet) :
    Placements × Bool × List ChangeEvent :=
  let new := contents
  let old := cellAt p.cells l
  if new ≠ old then
    ({ cells := setAt p.cells l new, changed := true }, true,
      if hook then [⟨p.cells, l, old, new⟩] else [])
  else
    (p, false, [])

/-- `Placements.eliminateAt(location, symbols)`: raises when the cell is still
the `{'*'}` sentinel; otherwise subtracts and commits via `setCell`. -/
def eliminateAt (p : Placements) (l : Loc) (symbols : SymbolSet) :
    Except Unit (Placements × Bool) :=
  let cell := cellAt p.cells l
  if cell.card = 1 ∧ value? cell = some "*" then
    .error ()
  else
    .ok (setCell p l (cell \ symbols))

/-- `Placements.eliminateThroughout(locations, symbols)`: eliminates at each
location, returning the locations that actually changed. -/
def eliminateThroughout (p : Placements) (locs : List Loc) (symbols : SymbolSet) :
    Except Unit (Placements × List Loc) :=
  match locs with
  | [] => .ok (p, [])
  | l :: rest => do
    let (p', b) ← eliminateAt p l symbols
    let (p'', changedLocs) ← eliminateThroughout p' rest symbols
    .ok (p'', if b then l :: changedLocs else changedLocs)

/-- `Placements.intersectAt(location, symbols)`: intersects; an uninitialized
`{'*'}` cell is replaced by `symbols` outright. -/
def intersectAt (p : Placements) (l : Loc) (symbols : SymbolSet) :
    Placements × Bool :=
  let cell := cellAt p.cells l
  let new := if cell.card = 1 ∧ value? cell = some "*" then symbols
             else cell ∩ symbols
  setCell p l new

/-- `Placements.intersectThroughout(locations, symbols)`. -/
def intersectThroughout (p : Placements) (locs : List Loc) (symbols : SymbolSet) :
    Placements × List Loc :=
  match locs with
  | [] => (p, [])
  | l :: rest =>
    let (p', b) := intersectAt p l symbols
    let (p'', changedLocs) := intersectThroughout p' rest symbols
    (p'', if b then l :: changedLocs else changedLocs)

/-- `Placements.allLocations()`: row-major iteration over the grid. -/
def allLocationsOf (cells : List (List SymbolSet)) : List Loc :=
  (List.range cells.length).flatMap fun r =>
    (List.range (rowAt cells r).length).map fun c => (r, c)

/-- `Placements.isSolved()`: every cell has exactly one symbol and it is not
`'*'` (`value()` is only consulted when `len(cell) == 1`). -/
def isSolved (p : Placements) : Bool :=
  (allLocationsOf p.cells).all fun l =>
    (cellAt p.cells l).card = 1 && value? (cellAt p.cells l) != some "*"

/-- `Placements.isUnsolvable()`: some cell is empty. -/
def isUnsolvable (p : Placements) : Bool :=
  (allLocationsOf p.cells).any fun l => (cellAt p.cells l).card = 0

/-- `Placements.indexSymbolsIn(region)`: maps each symbol occurring in the
region to the list of locations where it is a candidate, keys in first-seen
order (Python dict insertion order).  Iteration over each cell's symbol set
is CPython-arbitrary; we fix the sorted order. -/
def indexInsert {α : Type} [DecidableEq α] (idx : List (α × List Loc)) (s : α)
    (l : Loc) : List (α × List Loc) :=
  match idx with
  | [] => [(s, [l])]
  | (s', ls) :: rest =>
    if s' = s then (s', ls ++ [l]) :: rest
    else (s', ls) :: indexInsert rest s l

def indexSymbolsIn (p : Placements) (region : List Loc) :
    List (Symbol × List Loc) :=
  region.foldl (fun idx l =>
    (sortedSymbols (cellAt p.cells l)).foldl (fun idx s => indexInsert idx s l) idx) []

/-! ### Regions (src/constraints/region.py, src/constraints/listutils.py)

A `Region` is an ordered list of coordinates (`Region.cells`); the class is a
thin wrapper, so we embed regions as `List Loc` and its methods as functions.
-/

/-- `listutils.subtractLists(alist, blist)`. -/
def subtractLists {α : Type} [DecidableEq α] (a b : List α) : List α :=
  a.filter (fun x => decide (x ∉ b))

/-- `Region.hasSubset(other)`: all cells of `other` lie in `self`. -/
def hasSubset (self other : List Loc) : Bool :=
  other.all (fun c => decide (c ∈ self))

/-- `Region.hasProperSubset(other)`. -/
def hasProperSubset (self other : List Loc) : Bool :=
  decide (other.length < self.length) && hasSubset self other

/-- `Region.intersect(other)`: the source iterates over `other`, keeping the
cells that are in `self.cells` — so the result is in `other`'s order. -/
def regionIntersect (self other : List Loc) : List Loc :=
  other.filter (fun c => decide (c ∈ self))

/-- The spec's reading of `Region.intersect`: the common cells listed in
`self`'s order.  Kept for comparison with `regionIntersect`. -/
def regionIntersectSpec (self other : List Loc) : List Loc :=
  self.filter (fun c => decide (c ∈ other))

/-- `Region.subtract(other)`. -/
def regionSubtract (self other : List Loc) : List Loc :=
  self.filter (fun c => decide (c ∉ other))

/-- The `Region` class defines neither `__eq__` nor `__hash__`, so Python
`==` on two Regions falls back to the default: object identity.  We model a
Region object as its cell list together with its identity (`oid`); two
separately constructed Regions always carry distinct `oid`s. -/
structure RegionObj where
  oid : Nat
  cells : List Loc
deriving DecidableEq

/-- Python `==` between two `Region` objects (default identity equality). -/
def pyRegionEq (a b : RegionObj) : Bool := a.oid == b.oid

/-! ### Constraint taxonomy (Latin-square family) and puzzle state

The constraint variants exercised by the driver claims:
`RegionSymbolsConstraint`, `RegionPermutesSymbols`,
`RegionIsCompletePermutation`, `RegionsAreCompletePermutation`.
The `MathOp` family is embedded separately below (its techniques are the
subject of dedicated claims and its `apply` is not needed by them). -/

inductive Constraint where
  | regionSymbols (region : List Loc) (symbols : SymbolSet)
  | regionPermutes (region : List Loc) (symbols : SymbolSet)
  | regionIsCompletePermutation (region : List Loc)
  | regionsAreCompletePermutation (regions : List (List Loc))
deriving DecidableEq

/-- The `RegionPermutesSymbols` constructor: raises unless the symbol count
equals the region's cell count. -/
def mkRegionPermutes (region : List Loc) (symbols : SymbolSet) :
    Except Unit Constraint :=
  if symbols.card = region.length then .ok (.regionPermutes region symbols)
  else .error ()

/-- The `Puzzle` fields the propagation engine reads and writes.  Statistics,
`initial`, `dimensions` and the two callbacks (defaulting to `None`) do not
affect the grid or the constraint list and are omitted. -/
structure PuzzleState where
  size : Option (Nat × Nat)
  symbols : Option SymbolSet
  solution : Option Placements
  constraints : List Constraint
deriving DecidableEq

/-- Python truthiness of `puzzle.symbols` (`None` and the empty set are
falsy). -/
def symbolsTruthy (o : Option SymbolSet) : Bool :=
  match o with
  | some s => decide (s.card ≠ 0)
  | none => false

def withSolution (s : PuzzleState) (p : Placements) : PuzzleState :=
  { s with solution := some p }

/-! ### Techniques of the permutation family

Each technique returns `none` when it does not fire (Python `None`) and
`some replacements` when it does; techniques that mutate the grid return the
updated state.  `puzzle.logTechnique` only updates statistics (and propagates
the solution callback, `None` by default), so it is omitted. -/

/-- `RegionConstraint.empty`. -/
def techEmpty (region : List Loc) : Option (List Constraint) :=
  if region.isEmpty then some [] else none

/-- `RegionSymbolsConstraint.filterFromPuzzle` (also inherited by
`RegionPermutesSymbols`): fires when `self.symbols > puzzle.symbols`, i.e.
when the constraint's symbols are a proper superset of the alphabet, and
the replacement is a `RegionSymbolsConstraint` with the intersection. -/
def techFilterFromPuzzle (region : List Loc) (symbols : SymbolSet)
    (s : PuzzleState) : Option (List Constraint) :=
  match s.symbols with
  | some ps =>
    if ps.card ≠ 0 ∧ ps ⊂ symbols then
      some [.regionSymbols region (symbols ∩ ps)]
    else none
  | none => none

/-- `RegionSymbolsConstraint.solo`: a single possible symbol is written to
every cell of the region and the constraint finishes. -/
def techSolo (region : List Loc) (symbols : SymbolSet) (s : PuzzleState) :
    Option (List Constraint) × PuzzleState :=
  match s.solution with
  | some p =>
    if symbols.card = 1 then
      (some [], withSolution s (region.foldl (fun q l => (setCell q l symbols).1) p))
    else (none, s)
  | none => (none, s)

/-- `RegionSymbolsConstraint.filterSolution`: intersects each cell with the
constraint's symbols; always returns `None` (the technique never produces
replacement constraints, it only mutates the grid). -/
def techFilterSolution (region : List Loc) (symbols : SymbolSet)
    (s : PuzzleState) : PuzzleState :=
  match s.solution with
  | some p => withSolution s (intersectThroughout p region symbols).1
  | none => s

/-- The index built at the start of `RegionPermutesSymbols.partition`:
cells grouped by their candidate set (only sets smaller than the constraint's
symbol set), in first-seen order.  The source keys the dict by
`'|'.join(subset)`, which coincides for equal sets. -/
def partitionIndex (p : Placements) (region : List Loc) (symCount : Nat) :
    List (SymbolSet × List Loc) :=
  region.foldl (fun idx l =>
    let subset := cellAt p.cells l
    if subset.card < symCount then indexInsert idx subset l else idx) []

/-- `RegionPermutesSymbols.partition`. -/
def techPartition (region : List Loc) (symbols : SymbolSet) (s : PuzzleState) :
    Except Unit (Option (List Constraint) × PuzzleState) :=
  match s.solution with
  | some p =>
    match (partitionIndex p region symbols.card).find?
        (fun e => decide (e.1.card = e.2.length)) with
    | none => .ok (none, s)
    | some (subset, coordList) => do
      let remainder ← mkRegionPermutes (regionSubtract region coordList)
        (symbols \ subset)
      let limited ← mkRegionPermutes coordList subset
      let pp ← eliminateThroughout p (regionSubtract region coordList) subset
      .ok (some [limited, remainder], withSolution s pp.1)
  | none => .ok (none, s)

/-- `RegionPermutesSymbols.misfit`: a symbol with a single possible location
within the region is settled there. -/
def techMisfit (region : List Loc) (symbols : SymbolSet) (s : PuzzleState) :
    Except Unit (Option (List Constraint) × PuzzleState) :=
  match s.solution with
  | some p =>
    match (indexSymbolsIn p region).find? (fun e => decide (e.2.length = 1)) with
    | none => .ok (none, s)
    | some (sym, locs) => do
      let remainder ← mkRegionPermutes (regionSubtract region locs)
        (symbols \ {sym})
      .ok (some [remainder],
        withSolution s (setCell p (locs.headD (0, 0)) {sym}).1)
  | none => .ok (none, s)

/-- The scan of `puzzle.constraints` inside `RegionPermutesSymbols.borrow`. -/
def borrowGo (region : List Loc) (symbols : SymbolSet) (s : PuzzleState) :
    List Constraint → Except Unit (Option (List Constraint) × PuzzleState)
  | [] => .ok (none, s)
  | c :: rest =>
    match c with
    | .regionPermutes r2 sy2 =>
      if hasProperSubset region r2 then
        match s.solution with
        | some p => do
          let remainder ← mkRegionPermutes (regionSubtract region r2)
            (symbols \ sy2)
          let pp ← eliminateThroughout p (regionSubtract region r2) sy2
          .ok (some [remainder], withSolution s pp.1)
        | none => .error ()
      else borrowGo region symbols s rest
    | _ => borrowGo region symbols s rest

/-- `RegionPermutesSymbols.borrow`. -/
def techBorrow (region : List Loc) (symbols : SymbolSet) (s : PuzzleState) :
    Except Unit (Option (List Constraint) × PuzzleState) :=
  borrowGo region symbols s s.constraints

/-- The scan of `puzzle.constraints` inside
`RegionPermutesSymbols.intersection`.  The source skips `self` by object
identity (`constraint is not self`); we skip value-equal constraints, which
is behaviourally identical because a distinct constraint with the same region
never passes the `intersection.size() < self.region.size()` test. -/
def intersectionGo (region : List Loc) (symbols : SymbolSet) (s : PuzzleState) :
    List Constraint → Except Unit (Option (List Constraint) × PuzzleState)
  | [] => .ok (none, s)
  | c :: rest =>
    match c with
    | .regionPermutes r2 sy2 =>
      if (r2, sy2) ≠ (region, symbols) then
        if ¬(regionIntersect region r2).isEmpty ∧
            (regionIntersect region r2).length < region.length then
          match s.solution with
          | some p =>
            match (indexSymbolsIn p r2).find?
                (fun e => hasSubset (regionIntersect region r2) e.2) with
            | some (sym, _) => do
              let pp ← eliminateThroughout p
                (regionSubtract region (regionIntersect region r2)) {sym}
              let cpy ← mkRegionPermutes region symbols
              .ok (some [cpy], withSolution s pp.1)
            | none => intersectionGo region symbols s rest
          | none => .error ()
        else intersectionGo region symbols s rest
      else intersectionGo region symbols s rest
    | _ => intersectionGo region symbols s rest

/-- `RegionPermutesSymbols.intersection`. -/
def techIntersection (region : List Loc) (symbols : SymbolSet)
    (s : PuzzleState) : Except Unit (Option (List Constraint) × PuzzleState) :=
  intersectionGo region symbols s s.constraints

/-- `Constraint.apply` for `RegionSymbolsConstraint`: the base `apply` runs
the techniques in order once the puzzle has a solution grid and symbols,
returning the first non-`None` result, else `[self]`. -/
def applyRegionSymbols (region : List Loc) (symbols : SymbolSet)
    (s : PuzzleState) : Except Unit (List Constraint × PuzzleState) :=
  if s.solution.isSome ∧ symbolsTruthy s.symbols then
    match techEmpty region with
    | some r => .ok (r, s)
    | none =>
      match techFilterFromPuzzle region symbols s with
      | some r => .ok (r, s)
      | none =>
        match techSolo region symbols s with
        | (some r, s') => .ok (r, s')
        | (none, s') =>
          let s'' := techFilterSolution region symbols s'
          .ok ([.regionSymbols region symbols], s'')
  else .ok ([.regionSymbols region symbols], s)

/-- `Constraint.apply` for `RegionPermutesSymbols` (the inherited techniques
followed by `partition`, `misfit`, `borrow`, `intersection`). -/
def applyRegionPermutes (region : List Loc) (symbols : SymbolSet)
    (s : PuzzleState) : Except Unit (List Constraint × PuzzleState) :=
  if s.solution.isSome ∧ symbolsTruthy s.symbols then
    match techEmpty region with
    | some r => .ok (r, s)
    | none =>
      match techFilterFromPuzzle region symbols s with
      | some r => .ok (r, s)
      | none =>
        match techSolo region symbols s with
        | (some r, s') => .ok (r, s')
        | (none, s') => do
          let pr ← techPartition region symbols
            (techFilterSolution region symbols s')
          match pr.1 with
          | some r => .ok (r, pr.2)
          | none => do
            let mr ← techMisfit region symbols pr.2
            match mr.1 with
            | some r => .ok (r, mr.2)
            | none => do
              let br ← techBorrow region symbols mr.2
              match br.1 with
              | some r => .ok (r, br.2)
              | none => do
                let ir ← techIntersection region symbols br.2
                match ir.1 with
                | some r => .ok (r, ir.2)
                | none => .ok ([.regionPermutes region symbols], ir.2)
  else .ok ([.regionPermutes region symbols], s)

/-- `Constraint.apply`, dispatched over the variants.
`RegionIsCompletePermutation.apply` defers until the alphabet is known;
`RegionsAreCompletePermutation.apply` expands immediately. -/
def applyC (c : Constraint) (s : PuzzleState) :
    Except Unit (List Constraint × PuzzleState) :=
  match c with
  | .regionSymbols r sy => applyRegionSymbols r sy s
  | .regionPermutes r sy => applyRegionPermutes r sy s
  | .regionIsCompletePermutation r =>
    match s.symbols with
    | some ps =>
      if ps.card ≠ 0 then do
        let c' ← mkRegionPermutes r ps
        .ok ([c'], s)
      else .ok ([.regionIsCompletePermutation r], s)
    | none => .ok ([.regionIsCompletePermutation r], s)
  | .regionsAreCompletePermutation rs =>
    .ok (rs.map .regionIsCompletePermutation, s)

/-! ### The driver (src/puzzle.py) -/

/-- `Region([rows, cols])` builds the full-grid region column-major
(the inner comprehension runs over rows). -/
def colMajorLocs (size : Nat × Nat) : List Loc :=
  (List.range size.2).flatMap fun c => (List.range size.1).map fun r => (r, c)

/-- `Puzzle.expandStars`: once size, solution and symbols are known, any cell
whose arbitrary member reads `'*'` is replaced by the full alphabet.
(`cell.value()` on an empty cell raises.) -/
def expandStars (s : PuzzleState) : Except Unit PuzzleState :=
  match s.size, s.solution, s.symbols with
  | some sz, some p, some syms =>
    if syms.card ≠ 0 then do
      let p' ← (colMajorLocs sz).foldlM (fun q l => do
        let v ← valueE (cellAt q.cells l)
        if v = "*" then pure (setCell q l syms).1 else pure q) p
      .ok (withSolution s p')
    else .ok s
  | _, _, _ => .ok s

/-- `self.solution.changed = False` at the top of `reduceConstraints`. -/
def clearChanged (s : PuzzleState) : PuzzleState :=
  match s.solution with
  | some p => { s with solution := some { p with changed := false } }
  | none => s

/-- The `self.solution and self.solution.changed` part of the return value. -/
def solutionChanged (s : PuzzleState) : Bool :=
  match s.solution with
  | some p => p.changed
  | none => false

/-- The constraint loop of `Puzzle.reduceConstraints`: applies each
constraint in order (later constraints see earlier grid mutations, while
`puzzle.constraints` still holds the old list), concatenates the returned
lists, and records whether any constraint returned something other than
`[self]`. -/
def applyPass (cs : List Constraint) (s : PuzzleState) :
    Except Unit (List Constraint × Bool × PuzzleState) :=
  match cs with
  | [] => .ok ([], false, s)
  | c :: rest => do
    let cr ← applyC c s
    let pr ← applyPass rest cr.2
    .ok ((if cr.1.isEmpty then pr.1 else cr.1 ++ pr.1),
      (decide (cr.1 ≠ [c]) || pr.2.1), pr.2.2)

/-- The body of `Puzzle.reduceConstraints` after the dirty flag is cleared:
expand stars, run the pass, install the new constraint list, and report
whether the constraint list or the grid changed.  The `passes` statistic is
omitted. -/
def reduceAux (s : PuzzleState) : Except Unit (PuzzleState × Bool) := do
  let s1 ← expandStars s
  let pr ← applyPass s1.constraints s1
  .ok ({ pr.2.2 with constraints := pr.1 },
    pr.2.1 || solutionChanged { pr.2.2 with constraints := pr.1 })

/-- `Puzzle.reduceConstraints`. -/
def reduceConstraints (s : PuzzleState) : Except Unit (PuzzleState × Bool) :=
  reduceAux (clearChanged s)

/-! ### The guess heuristic of `Puzzle.searchSolutionSpace`

Only the choice of the guessed cell is modelled (the claim is about that
choice); the recursive deep-copy search around it is driver plumbing. -/

/-- The dict assignment `index[k] = l`: replace in place when the key is
present, else append (insertion order preserved). -/
def updateIndex (idx : List (Nat × Loc)) (k : Nat) (l : Loc) :
    List (Nat × Loc) :=
  if idx.any (fun e => decide (e.1 = k)) then
    idx.map (fun e => (e.1, if e.1 = k then l else e.2))
  else idx ++ [(k, l)]

/-- The index-building loop of `searchSolutionSpace`, generalized over the
cell-size function for the proofs: maps a count (> 1) to the last location
having that count. -/
def foldIdx (f : Loc → Nat) (L : List Loc) : List (Nat × Loc) :=
  L.foldl (fun idx l => if f l > 1 then updateIndex idx (f l) l else idx) []

/-- The index built by `searchSolutionSpace`: maps a candidate count (> 1) to
the last row-major location having that count. -/
def buildGuessIndex (cells : List (List SymbolSet)) : List (Nat × Loc) :=
  foldIdx (fun l => (cellAt cells l).card) (allLocationsOf cells)

/-- The guessed cell: `counts = sorted(index.keys()); index[counts[0]]`.
When no cell has two or more candidates, `counts[0]` raises `IndexError`
(modelled as `none`). -/
def guessLocation (cells : List (List SymbolSet)) : Option Loc :=
  let idx := buildGuessIndex cells
  match (idx.map Prod.fst).min? with
  | none => none
  | some k => idx.lookup k

/-- The spec's description of the guess: among the cells with at least two
candidates, the last row-major location whose count equals the smallest such
count. -/
def guessLocationSpec (cells : List (List SymbolSet)) : Option Loc :=
  let cand := (allLocationsOf cells).filter (fun l => decide (2 ≤ (cellAt cells l).card))
  match (cand.map (fun l => (cellAt cells l).card)).min? with
  | none => none
  | some m => (cand.filter (fun l => (cellAt cells l).card == m)).getLast?

/-! ### The MathOp family (src/constraints/numbers.py)

The four subclasses fix the operator, its inverse and commutativity, so we
embed a `MathOp` by its subclass tag, region and target.  Python's `/` on
integers produces a non-integer rejected by the `x == round(x)` filter; we
model the arithmetic exactly with unreduced numerator/denominator pairs
(exact at the small magnitudes the solver handles; Python would raise
`ZeroDivisionError` on a zero divisor, which no claim exercises).  The
`singleValue` and `removeKnown` techniques are embedded standalone — the
claims about them do not involve the surrounding `apply` chain. -/

/-- An exact rational `num / den` (not reduced; `den` is never `0` on the
paths the claims take). -/
structure PyNum where
  num : Int
  den : Int
deriving DecidableEq

def pnInt (i : Int) : PyNum := ⟨i, 1⟩

def sumF (x y : PyNum) : PyNum := ⟨x.num * y.den + y.num * x.den, x.den * y.den⟩

def differenceF (x y : PyNum) : PyNum :=
  ⟨x.num * y.den - y.num * x.den, x.den * y.den⟩

def productF (x y : PyNum) : PyNum := ⟨x.num * y.num, x.den * y.den⟩

def quotientF (x y : PyNum) : PyNum := ⟨x.num * y.den, x.den * y.num⟩

/-- `x == round(x)`: whether the value is an integer (the rounding mode is
irrelevant to the equality test). -/
def pnIsIntegral (x : PyNum) : Bool := x.num % x.den == 0

/-- `round(x)` on an integral value: the exact quotient. -/
def pnRound (x : PyNum) : Int := x.num / x.den

inductive MathOpKind where
  | sum
  | difference
  | product
  | quotient
deriving DecidableEq

/-- `self.operator` as fixed by the subclass constructors. -/
def opF : MathOpKind → PyNum → PyNum → PyNum
  | .sum => sumF
  | .difference => differenceF
  | .product => productF
  | .quotient => quotientF

/-- `self.inverse` as fixed by the subclass constructors. -/
def invF : MathOpKind → PyNum → PyNum → PyNum
  | .sum => differenceF
  | .difference => sumF
  | .product => quotientF
  | .quotient => productF

/-- `self.isCommutative` as fixed by the subclass constructors. -/
def isCommutativeK : MathOpKind → Bool
  | .sum => true
  | .difference => false
  | .product => true
  | .quotient => false

/-- The decimal digits of a natural number (most significant first); `fuel`
bounds the recursion and any `fuel > log10 n` gives the exact digits. -/
def natDigits (fuel n : Nat) : List Char :=
  match fuel with
  | 0 => []
  | fuel + 1 =>
    if n < 10 then [Char.ofNat (48 + n)]
    else natDigits fuel (n / 10) ++ [Char.ofNat (48 + n % 10)]

/-- Python `str()` of an integer (canonical decimal rendering). -/
def intToStr (i : Int) : String :=
  match i with
  | .ofNat n => ⟨natDigits (n + 1) n⟩
  | .negSucc n => ⟨'-' :: natDigits (n + 2) (n + 1)⟩

/-- Parse a digit list as a natural number (`none` unless all characters are
decimal digits and the list is non-empty). -/
def parseNatDigits (ds : List Char) : Option Nat :=
  if ds.isEmpty then none
  else if ds.all (fun c => 48 ≤ c.toNat ∧ c.toNat ≤ 57) then
    some (ds.foldl (fun acc c => acc * 10 + (c.toNat - 48)) 0)
  else none

/-- Python `int(string)` on canonical integer renderings (raises `ValueError`
otherwise, which the call sites treat as an exception). -/
def pyInt (s : String) : Option Int :=
  match s.data with
  | '-' :: ds => (parseNatDigits ds).map (fun n => -(n : Int))
  | ds => (parseNatDigits ds).map Int.ofNat

structure MathOp where
  kind : MathOpKind
  region : List Loc
  target : Int
deriving DecidableEq

def mkSumIs (region : List Loc) (target : Int) : MathOp :=
  ⟨.sum, region, target⟩

def mkDifferenceIs (region : List Loc) (target : Int) : MathOp :=
  ⟨.difference, region, target⟩

def mkProductIs (region : List Loc) (target : Int) : MathOp :=
  ⟨.product, region, target⟩

def mkQuotientIs (region : List Loc) (target : Int) : MathOp :=
  ⟨.quotient, region, target⟩

/-- `MathOp.inverseList(value, target)`: the inverse applied to (target,
value), plus `op(value, target)` for non-commutative operators, keeping only
integral results. -/
def inverseList (c : MathOp) (value : Int) (target : PyNum) : List PyNum :=
  let result := [invF c.kind target (pnInt value)]
  let result := if isCommutativeK c.kind then result
                else result ++ [opF c.kind (pnInt value) target]
  result.filter pnIsIntegral

/-- `MathOp.inverseSet(value)` (target defaults to the constraint's):
`str(round(x))` of each integral inverse, as a set. -/
def inverseSet (c : MathOp) (value : Int) : SymbolSet :=
  ((inverseList c value (pnInt c.target)).map (fun x => intToStr (pnRound x))).toFinset

/-- What a `MathOp` technique may return: a fresh `MathOp` (the
`copy.copy(self)` of `removeKnown`) or a constraint of the base taxonomy. -/
inductive MathApplyResult where
  | mathC (m : MathOp)
  | baseC (c : Constraint)
deriving DecidableEq

/-- `MathOp.singleValue`: a one-cell region is set to the target outright.
`assert str(self.target) in puzzle.symbols` raises when the target is not in
the alphabet; no commutativity test appears in the source. -/
def singleValue (c : MathOp) (s : PuzzleState) :
    Except Unit (Option (List MathApplyResult) × PuzzleState) :=
  match s.symbols, s.solution with
  | some syms, some p =>
    if syms.card ≠ 0 then
      if c.region.length = 1 then
        if intToStr c.target ∈ syms then
          .ok (some [],
            withSolution s (setCell p (c.region.headD (0, 0)) {intToStr c.target}).1)
        else .error ()
      else .ok (none, s)
    else .ok (none, s)
  | _, _ => .ok (none, s)

/-- The location scan inside `MathOp.removeKnown`. -/
def removeKnownGo (c : MathOp) (s : PuzzleState) (p : Placements)
    (syms : SymbolSet) :
    List Loc → Except Unit (Option (List MathApplyResult) × PuzzleState)
  | [] => .ok (none, s)
  | l :: rest =>
    let cell := cellAt p.cells l
    match value? cell with
    | some vs =>
      if cell.card = 1 ∧ vs ≠ "*" then
        match pyInt vs with
        | none => .error ()
        | some v =>
          let inverses := inverseSet c v ∩ syms
          if inverses.card = 1 then
            match value? inverses with
            | none => .error ()
            | some is =>
              match pyInt is with
              | none => .error ()
              | some t' =>
                .ok (some [.mathC ⟨c.kind, regionSubtract c.region [l], t'⟩], s)
          else
            if c.region.length = 2 then
              .ok (some [.baseC (.regionSymbols (regionSubtract c.region [l]) inverses)], s)
            else removeKnownGo c s p syms rest
      else removeKnownGo c s p syms rest
    | none => removeKnownGo c s p syms rest

/-- `MathOp.removeKnown`: the first determined cell is removed from the
region; with a unique surviving inverse a fresh `MathOp` targets it, and for
a two-cell region the surviving inverses become a `RegionSymbolsConstraint`
on the remaining cell. -/
def removeKnown (c : MathOp) (s : PuzzleState) :
    Except Unit (Option (List MathApplyResult) × PuzzleState) :=
  match s.solution, s.symbols with
  | some p, some syms =>
    if syms.card ≠ 0 then removeKnownGo c s p syms c.region
    else .ok (none, s)
  | _, _ => .ok (none, s)

/-- The candidate set of the solution grid at a location (empty grid when no
solution is set); a convenience accessor for stating theorems. -/
def stateCellAt (s : PuzzleState) (l : Loc) : SymbolSet :=
  match s.solution with
  | some p => cellAt p.cells l
  | none => ∅

/-! ### Concrete states used by counterexamples, failing inputs and witnesses -/

/-- Alphabet `{1, 2}`, a 1×1 grid whose cell holds the full alphabet, and a
`RegionSymbolsConstraint` over that cell whose symbol set `{x}` lies outside
the alphabet. -/
def foreignSymbolState : PuzzleState :=
  { size := some (1, 1), symbols := some {"1", "2"},
    solution := some ⟨[[{"1", "2"}]], false⟩,
    constraints := [.regionSymbols [(0, 0)] {"x"}] }

/-- `foreignSymbolState` after one propagation pass: `solo` has written the
out-of-alphabet symbol `x` into the cell. -/
def foreignSymbolAfter : PuzzleState :=
  { size := some (1, 1), symbols := some {"1", "2"},
    solution := some ⟨[[{"x"}]], true⟩, constraints := [] }

/-- A 1×1 puzzle with alphabet `{1}`, an uninitialized grid, and the
shorthand `RegionsAreCompletePermutation` constraint: each pass rewrites the
constraint list. -/
def cascadeState : PuzzleState :=
  { size := some (1, 1), symbols := some {"1"},
    solution := some ⟨[[{"*"}]], false⟩,
    constraints := [.regionsAreCompletePermutation [[(0, 0)]]] }

/-- `cascadeState` after the first `reduceConstraints` call. -/
def cascadeAfterOne : PuzzleState :=
  { size := some (1, 1), symbols := some {"1"},
    solution := some ⟨[[{"1"}]], true⟩,
    constraints := [.regionIsCompletePermutation [(0, 0)]] }

/-- `cascadeState` after the second `reduceConstraints` call: the constraint
list has changed again. -/
def cascadeAfterTwo : PuzzleState :=
  { size := some (1, 1), symbols := some {"1"},
    solution := some ⟨[[{"1"}]], false⟩,
    constraints := [.regionPermutes [(0, 0)] {"1"}] }

/-- A quiescent state: the alphabet is not yet known, so the
`RegionIsCompletePermutation` constraint defers and `reduceConstraints`
reports no change.  The dirty flag is initially set, to exercise its
clearing. -/
def quiescentState : PuzzleState :=
  { size := some (1, 1), symbols := none,
    solution := some ⟨[[{"1"}]], true⟩,
    constraints := [.regionIsCompletePermutation [(0, 0)]] }

/-- `quiescentState` after `reduceConstraints`: only the dirty flag was
cleared. -/
def quiescentAfter : PuzzleState :=
  { size := some (1, 1), symbols := none,
    solution := some ⟨[[{"1"}]], false⟩,
    constraints := [.regionIsCompletePermutation [(0, 0)]] }

/-- Alphabet `{1, 2, 3}` over a single undetermined cell. -/
def singleCellState : PuzzleState :=
  { size := some (1, 1), symbols := some {"1", "2", "3"},
    solution := some ⟨[[{"1", "2", "3"}]], false⟩, constraints := [] }

/-- `singleCellState` after `singleValue` of a target-3 cage fires. -/
def singleCellAfter : PuzzleState :=
  { size := some (1, 1), symbols := some {"1", "2", "3"},
    solution := some ⟨[[{"3"}]], true⟩, constraints := [] }

/-- A two-cell `SumIs 10` cage state: the first cell is determined to `1`,
so the partner would have to be `9`, which is outside the alphabet
`{1, 2, 3}`. -/
def deadPairState : PuzzleState :=
  { size := some (1, 2), symbols := some {"1", "2", "3"},
    solution := some ⟨[[{"1"}, {"1", "2", "3"}]], false⟩, constraints := [] }

/-! ## Helper lemmas -/

theorem value?_singleton (a : Symbol) : value? {a} = some a := rfl

theorem sentinel_iff (s : SymbolSet) :
    (s.card = 1 ∧ value? s = some "*") ↔ s = {"*"} := by
  constructor
  · rintro ⟨h1, h2⟩
    obtain ⟨a, rfl⟩ := Finset.card_eq_one.mp h1
    rw [value?_singleton] at h2
    obtain rfl : a = "*" := by simpa using h2
    rfl
  · rintro rfl
    exact ⟨by decide, rfl⟩

theorem mem_allLocationsOf (cells : List (List SymbolSet)) (l : Loc) :
    l ∈ allLocationsOf cells ↔
      l.1 < cells.length ∧ l.2 < (rowAt cells l.1).length := by
  obtain ⟨r, c⟩ := l
  simp only [allLocationsOf, List.mem_flatMap, List.mem_range, List.mem_map]
  constructor
  · rintro ⟨r', hr', c', hc', h⟩
    obtain ⟨rfl, rfl⟩ := Prod.mk.injEq .. ▸ h
    cases h
    exact ⟨hr', hc'⟩
  · rintro ⟨hr, hc⟩
    exact ⟨r, hr, c, hc, rfl⟩

theorem length_setAt (cells : List (List SymbolSet)) (l : Loc) (v : SymbolSet) :
    (setAt cells l v).length = cells.length := by
  simp [setAt]

theorem rowAt_setAt_self (cells : List (List SymbolSet)) (l : Loc)
    (v : SymbolSet) (hr : l.1 < cells.length) :
    rowAt (setAt cells l v) l.1 = (rowAt cells l.1).set l.2 v := by
  simp only [setAt, rowAt]
  rw [List.getD_eq_getElem?_getD, List.getElem?_set_self (by simpa using hr)]
  rfl

theorem cellAt_setAt_self (cells : List (List SymbolSet)) (l : Loc)
    (v : SymbolSet) (hr : l.1 < cells.length)
    (hc : l.2 < (rowAt cells l.1).length) :
    cellAt (setAt cells l v) l = v := by
  simp only [cellAt]
  rw [rowAt_setAt_self cells l v hr]
  rw [List.getD_eq_getElem?_getD, List.getElem?_set_self (by simpa using hc)]
  rfl

theorem cellAt_setAt_ne (cells : List (List SymbolSet)) (l l' : Loc)
    (v : SymbolSet) (h : l' ≠ l) :
    cellAt (setAt cells l v) l' = cellAt cells l' := by
  by_cases hr : l.1 < cells.length
  · by_cases hrow : l'.1 = l.1
    · have hcol : l'.2 ≠ l.2 := fun hc => h (Prod.ext hrow hc)
      simp only [cellAt]
      rw [hrow, rowAt_setAt_self cells l v hr]
      rw [List.getD_eq_getElem?_getD, List.getElem?_set_ne (by omega),
        ← List.getD_eq_getElem?_getD]
    · have key : ∀ w, (cells.set l.1 w).getD l'.1 [] = cells.getD l'.1 [] := by
        intro w
        rw [List.getD_eq_getElem?_getD, List.getElem?_set_ne (fun hh => hrow hh.symm),
          ← List.getD_eq_getElem?_getD]
      simp only [cellAt, setAt, rowAt]
      rw [key]
  · simp only [setAt]
    rw [List.set_eq_of_length_le (by omega)]

theorem setCell_of_eq (p : Placements) (l : Loc) (v : SymbolSet)
    (h : v = cellAt p.cells l) : setCell p l v = (p, false) := by
  simp [setCell, h]

theorem setCell_of_ne (p : Placements) (l : Loc) (v : SymbolSet)
    (h : v ≠ cellAt p.cells l) :
    setCell p l v = ({ cells := setAt p.cells l v, changed := true }, true) := by
  simp [setCell, h]

theorem isUnsolvable_of_empty (p : Placements) (l : Loc)
    (hr : l.1 < p.cells.length) (hc : l.2 < (rowAt p.cells l.1).length)
    (h : cellAt p.cells l = ∅) : isUnsolvable p = true := by
  simp only [isUnsolvable, List.any_eq_true]
  exact ⟨l, (mem_allLocationsOf _ _).mpr ⟨hr, hc⟩, by simp [h]⟩

/-! ## Claims -/

/-- C3: `eliminateAt(loc, bad)` raises an error if and only if the cell at
`loc` is exactly the singleton `{'*'}`; when the subtraction leaves the cell
empty it does not raise, the empty set is committed to the grid, and
`isUnsolvable` subsequently returns true. -/
theorem eliminateAt_raises_iff_sentinel (p : Placements) (l : Loc)
    (bad : SymbolSet) (hr : l.1 < p.cells.length)
    (hc : l.2 < (rowAt p.cells l.1).length) :
    (eliminateAt p l bad = .error () ↔ cellAt p.cells l = {"*"}) ∧
    (cellAt p.cells l ≠ {"*"} → cellAt p.cells l \ bad = ∅ →
      ∃ p' b, eliminateAt p l bad = .ok (p', b) ∧
        cellAt p'.cells l = ∅ ∧ isUnsolvable p' = true) := by
  by_cases hcond : (cellAt p.cells l).card = 1 ∧
      value? (cellAt p.cells l) = some "*"
  · have hstar := (sentinel_iff _).mp hcond
    constructor
    · simp [eliminateAt, hcond, hstar, value?_singleton]
    · intro hne
      exact absurd hstar hne
  · have hne : cellAt p.cells l ≠ {"*"} := fun h =>
      hcond ((sentinel_iff _).mpr h)
    have hok : eliminateAt p l bad = .ok (setCell p l (cellAt p.cells l \ bad)) := by
      simp [eliminateAt, hcond]
    constructor
    · rw [hok]
      simp [hne]
    · intro _ hempty
      by_cases hchg : (cellAt p.cells l \ bad) = cellAt p.cells l
      · refine ⟨p, false, ?_, ?_, ?_⟩
        · rw [hok, setCell_of_eq p l _ hchg]
        · rw [← hchg, hempty]
        · exact isUnsolvable_of_empty p l hr hc (by rw [← hchg, hempty])
      · refine ⟨{ cells := setAt p.cells l (cellAt p.cells l \ bad), changed := true },
          true, ?_, ?_, ?_⟩
        · rw [hok, setCell_of_ne p l _ hchg]
        · rw [cellAt_setAt_self p.cells l _ hr hc, hempty]
        · refine isUnsolvable_of_empty _ l ?_ ?_ ?_
          · simpa [length_setAt] using hr
          · rw [rowAt_setAt_self p.cells l _ hr]
            simpa using hc
          · rw [cellAt_setAt_self p.cells l _ hr hc, hempty]

/-- Witness for `eliminateAt_raises_iff_sentinel` at a concrete grid. -/
theorem eliminateAt_raises_iff_sentinel_witness :
    (0 : Nat) < 1 ∧ (0 : Nat) < 1 ∧
    ((eliminateAt ⟨[[{"1"}]], false⟩ (0, 0) {"1"} = .error () ↔
        cellAt [[{"1"}]] (0, 0) = {"*"}) ∧
      (cellAt [[{"1"}]] (0, 0) ≠ {"*"} → cellAt [[{"1"}]] (0, 0) \ {"1"} = ∅ →
        ∃ p' b, eliminateAt ⟨[[{"1"}]], false⟩ (0, 0) {"1"} = .ok (p', b) ∧
          cellAt p'.cells (0, 0) = ∅ ∧ isUnsolvable p' = true)) :=
  ⟨by decide, by decide,
    eliminateAt_raises_iff_sentinel ⟨[[{"1"}]], false⟩ (0, 0) {"1"}
      (by decide) (by decide)⟩

/-- C6: `setCell(loc, symbols)` with contents equal to the current value
returns false and touches nothing (cell, dirty flag, other cells, hook);
with different contents the `onChange` hook (when set) is called once with
`(grid, location, old, new)` carrying the pre-commit grid, the cell is
replaced, the dirty flag is set, true is returned, and no other cell
changes. -/
theorem setCell_frame (hook : Bool) (p : Placements) (l : Loc) (v : SymbolSet)
    (hr : l.1 < p.cells.length) (hc : l.2 < (rowAt p.cells l.1).length) :
    (v = cellAt p.cells l → setCellHook hook p l v = (p, false, [])) ∧
    (v ≠ cellAt p.cells l →
      (setCellHook hook p l v).1 = { cells := setAt p.cells l v, changed := true } ∧
      cellAt (setCellHook hook p l v).1.cells l = v ∧
      (setCellHook hook p l v).2.1 = true ∧
      (setCellHook hook p l v).2.2 =
        (if hook then [⟨p.cells, l, cellAt p.cells l, v⟩] else []) ∧
      (∀ l', l' ≠ l →
        cellAt (setCellHook hook p l v).1.cells l' = cellAt p.cells l')) := by
  constructor
  · intro h
    simp [setCellHook, h]
  · intro h
    have hrun : setCellHook hook p l v =
        ({ cells := setAt p.cells l v, changed := true }, true,
          if hook then [⟨p.cells, l, cellAt p.cells l, v⟩] else []) := by
      simp [setCellHook, h]
    rw [hrun]
    refine ⟨rfl, ?_, rfl, rfl, ?_⟩
    · exact cellAt_setAt_self p.cells l v hr hc
    · intro l' hl'
      exact cellAt_setAt_ne p.cells l l' v hl'

/-- Witness for `setCell_frame` at a concrete grid. -/
theorem setCell_frame_witness :
    (0 : Nat) < 1 ∧ (0 : Nat) < 1 ∧
    ((({"2"} : SymbolSet) = cellAt [[{"1"}]] (0, 0) →
        setCellHook true ⟨[[{"1"}]], false⟩ (0, 0) {"2"} =
          (⟨[[{"1"}]], false⟩, false, [])) ∧
      (({"2"} : SymbolSet) ≠ cellAt [[{"1"}]] (0, 0) →
        (setCellHook true ⟨[[{"1"}]], false⟩ (0, 0) {"2"}).1 =
          { cells := setAt [[{"1"}]] (0, 0) {"2"}, changed := true } ∧
        cellAt (setCellHook true ⟨[[{"1"}]], false⟩ (0, 0) {"2"}).1.cells (0, 0) =
          {"2"} ∧
        (setCellHook true ⟨[[{"1"}]], false⟩ (0, 0) {"2"}).2.1 = true ∧
        (setCellHook true ⟨[[{"1"}]], false⟩ (0, 0) {"2"}).2.2 =
          (if true then [⟨[[{"1"}]], (0, 0), cellAt [[{"1"}]] (0, 0), {"2"}⟩]
           else []) ∧
        (∀ l', l' ≠ ((0, 0) : Loc) →
          cellAt (setCellHook true ⟨[[{"1"}]], false⟩ (0, 0) {"2"}).1.cells l' =
            cellAt [[{"1"}]] l'))) :=
  ⟨by decide, by decide,
    setCell_frame true ⟨[[{"1"}]], false⟩ (0, 0) {"2"} (by decide) (by decide)⟩

/-- C8 counterexample: `Region.intersect` keeps the other region's order, not
self's.  With self `[a2, a1]` and other `[a1, a2]` the source returns
`[a1, a2]` (other's order), while the claim would give `[a2, a1]`. -/
theorem intersect_order_counterexample :
    regionIntersect [(0, 1), (0, 0)] [(0, 0), (0, 1)] = [(0, 0), (0, 1)] ∧
    regionIntersect [(0, 1), (0, 0)] [(0, 0), (0, 1)] ≠
      regionIntersectSpec [(0, 1), (0, 0)] [(0, 0), (0, 1)] ∧
    regionIntersectSpec [(0, 1), (0, 0)] [(0, 0), (0, 1)] = [(0, 1), (0, 0)] := by
  decide

/-- C8 (amended): `A.intersect(B)` contains exactly the coordinates occurring
in both regions, listed in the order in which they occur in `B` (the
argument), i.e. it is the sublist of `B` of cells also in `A`. -/
theorem intersect_membership_and_order (A B : List Loc) :
    (∀ x, x ∈ regionIntersect A B ↔ x ∈ B ∧ x ∈ A) ∧
    (regionIntersect A B).Sublist B := by
  constructor
  · intro x
    simp [regionIntersect]
  · exact List.filter_sublist B

/-- C9 counterexample: two Regions built from the same coordinates in
different orders have equal cell multisets yet compare unequal (the class
defines no `__eq__`, so Python falls back to identity). -/
theorem regionEq_counterexample :
    ((⟨0, [(0, 0), (0, 1)]⟩ : RegionObj).cells : Multiset Loc) =
      ((⟨1, [(0, 1), (0, 0)]⟩ : RegionObj).cells : Multiset Loc) ∧
    pyRegionEq ⟨0, [(0, 0), (0, 1)]⟩ ⟨1, [(0, 1), (0, 0)]⟩ = false := by
  constructor
  · decide
  · decide

/-- C9 (amended): `Region` equality is object identity — two distinct Region
objects compare unequal regardless of their cells, so equality is not the
unordered-multiset comparison the spec describes. -/
theorem regionEq_is_identity (a b : RegionObj) (h : a.oid ≠ b.oid) :
    pyRegionEq a b = false := by
  simp [pyRegionEq, h]

/-- Witness for `regionEq_is_identity`. -/
theorem regionEq_is_identity_witness :
    (0 : Nat) ≠ 1 ∧ pyRegionEq ⟨0, [(0, 0)]⟩ ⟨1, [(0, 0)]⟩ = false :=
  ⟨by decide, regionEq_is_identity ⟨0, [(0, 0)]⟩ ⟨1, [(0, 0)]⟩ (by decide)⟩

/-- C4: `filterFromPuzzle` fires only when the constraint's symbols are a
proper superset of the alphabet (`self.symbols > puzzle.symbols`), not
whenever some symbol lies outside the alphabet: with symbols `{1, x}` and
alphabet `{1, 2}` the symbol `x` is foreign yet the technique does not fire;
with symbols `{1, 2, x}` it fires and returns the intersection. -/
theorem filterFromPuzzle_misses_foreign_symbols :
    ¬ (({"1", "x"} : SymbolSet) ⊆ {"1", "2"}) ∧
    techFilterFromPuzzle [(0, 0)] {"1", "x"} foreignSymbolState = none ∧
    techFilterFromPuzzle [(0, 0)] {"1", "2", "x"} foreignSymbolState =
      some [.regionSymbols [(0, 0)] ({"1", "2"} : SymbolSet)] := by
  refine ⟨by decide, by decide, by decide⟩

/-- C1: the grid invariant fails on a reachable state.  Starting from
`foreignSymbolState` (alphabet `{1, 2}`, initialized 1×1 grid, and a
`RegionSymbolsConstraint` carrying the out-of-alphabet symbol set `{x}`),
one `reduceConstraints` pass leaves the cell equal to `{x}`, which is
neither `{'*'}`, nor empty, nor a subset of the alphabet. -/
theorem invariant_violated_by_foreign_solo :
    reduceConstraints foreignSymbolState = .ok (foreignSymbolAfter, true) ∧
    stateCellAt foreignSymbolAfter (0, 0) = {"x"} ∧
    ¬ (({"x"} : SymbolSet) = {"*"} ∨ ({"x"} : SymbolSet) = ∅ ∨
      ({"x"} : SymbolSet) ⊆ {"1", "2"}) := by
  refine ⟨by decide, by decide, by decide⟩

/-- C2 counterexample: two immediately successive `reduceConstraints` calls
where the second still mutates the constraint list (shorthand constraints
expand across passes). -/
theorem reduceConstraints_second_call_mutates :
    reduceConstraints cascadeState = .ok (cascadeAfterOne, true) ∧
    reduceConstraints cascadeAfterOne = .ok (cascadeAfterTwo, true) ∧
    cascadeAfterTwo.constraints ≠ cascadeAfterOne.constraints := by
  refine ⟨by decide, by decide, by decide⟩

/-- C5 counterexample: `singleValue` fires for a non-commutative operator.
A `DifferenceIs` cage over one cell with target 3 has
`isCommutative = False`, yet `singleValue` fires, sets the cell to `3` and
finishes. -/
theorem singleValue_fires_noncommutative :
    isCommutativeK (mkDifferenceIs [(0, 0)] 3).kind = false ∧
    singleValue (mkDifferenceIs [(0, 0)] 3) singleCellState =
      .ok (some [], singleCellAfter) := by
  refine ⟨by decide, by decide⟩

/-- C5 (amended): once the puzzle has symbols and a solution grid,
`singleValue` fires exactly when the region has exactly one cell and the
decimal rendering of the target is in the alphabet — commutativity of the
operator is not required; when it fires it sets that cell to the target and
returns the empty replacement list; when the region has one cell but the
target is outside the alphabet the assertion raises. -/
theorem singleValue_spec (c : MathOp) (s : PuzzleState) (p : Placements)
    (syms : SymbolSet) (hsol : s.solution = some p)
    (hsym : s.symbols = some syms) (hcard : syms.card ≠ 0) :
    (c.region.length = 1 → intToStr c.target ∈ syms →
      singleValue c s = .ok (some [],
        withSolution s (setCell p (c.region.headD (0, 0)) {intToStr c.target}).1)) ∧
    (c.region.length = 1 → intToStr c.target ∉ syms →
      singleValue c s = .error ()) ∧
    (c.region.length ≠ 1 → singleValue c s = .ok (none, s)) := by
  refine ⟨?_, ?_, ?_⟩
  · intro h1 h2
    simp [singleValue, hsol, hsym, hcard, h1, h2]
  · intro h1 h2
    simp [singleValue, hsol, hsym, hcard, h1, h2]
  · intro h1
    simp [singleValue, hsol, hsym, hcard, h1]

/-- Witness for `singleValue_spec`: a single-cell `SumIs 2` cage on
`singleCellState`. -/
theorem singleValue_spec_witness :
    singleCellState.solution = some ⟨[[{"1", "2", "3"}]], false⟩ ∧
    singleCellState.symbols = some {"1", "2", "3"} ∧
    ({"1", "2", "3"} : SymbolSet).card ≠ 0 ∧
    (((mkSumIs [(0, 0)] 2).region.length = 1 →
        intToStr (mkSumIs [(0, 0)] 2).target ∈ ({"1", "2", "3"} : SymbolSet) →
        singleValue (mkSumIs [(0, 0)] 2) singleCellState = .ok (some [],
          withSolution singleCellState
            (setCell ⟨[[{"1", "2", "3"}]], false⟩
              ((mkSumIs [(0, 0)] 2).region.headD (0, 0))
              {intToStr (mkSumIs [(0, 0)] 2).target}).1)) ∧
      ((mkSumIs [(0, 0)] 2).region.length = 1 →
        intToStr (mkSumIs [(0, 0)] 2).target ∉ ({"1", "2", "3"} : SymbolSet) →
        singleValue (mkSumIs [(0, 0)] 2) singleCellState = .error ()) ∧
      ((mkSumIs [(0, 0)] 2).region.length ≠ 1 →
        singleValue (mkSumIs [(0, 0)] 2) singleCellState = .ok (none, singleCellState))) :=
  ⟨by decide, by decide, by decide,
    singleValue_spec (mkSumIs [(0, 0)] 2) singleCellState
      ⟨[[{"1", "2", "3"}]], false⟩ {"1", "2", "3"} (by decide) (by decide)
      (by decide)⟩

/-- C10: for a two-cell cage whose first cell is determined to an integer
whose surviving inverses (intersected with the alphabet) are empty,
`removeKnown` neither raises nor defers: it returns a
`RegionSymbolsConstraint` on the one remaining cell carrying the empty
symbol set, and applying that constraint empties the remaining cell. -/
theorem removeKnown_empty_inverses (c : MathOp) (s : PuzzleState)
    (p : Placements) (syms : SymbolSet) (l1 l2 : Loc) (v : Symbol) (n : Int)
    (hsol : s.solution = some p) (hsym : s.symbols = some syms)
    (hcard : syms.card ≠ 0) (hreg : c.region = [l1, l2]) (hne : l2 ≠ l1)
    (hcell : cellAt p.cells l1 = {v}) (hv : v ≠ "*")
    (hparse : pyInt v = some n) (hinv : inverseSet c n ∩ syms = ∅)
    (hr : l2.1 < p.cells.length) (hc : l2.2 < (rowAt p.cells l2.1).length) :
    removeKnown c s = .ok (some [.baseC (.regionSymbols [l2] ∅)], s) ∧
    (∃ p', applyC (.regionSymbols [l2] ∅) s =
      .ok ([.regionSymbols [l2] ∅], withSolution s p') ∧
      cellAt p'.cells l2 = ∅) := by
  have hsub : regionSubtract c.region [l1] = [l2] := by
    rw [hreg]
    simp [regionSubtract, hne]
  constructor
  · have hgo : removeKnown c s = removeKnownGo c s p syms c.region := by
      simp [removeKnown, hsol, hsym, hcard]
    rw [hgo, hreg]
    have hsub' : regionSubtract c.region [l1] = [l2] := hsub
    simp only [removeKnownGo, hcell, value?_singleton, Finset.card_singleton,
      hv, hparse, hinv, Finset.card_empty]
    rw [hreg] at hsub'
    simp [hreg, hsub', hv]
  · -- applying the returned constraint: only `filterSolution` acts, and it
    -- intersects the remaining cell with the empty set
    have hinter : intersectAt p l2 ∅ = setCell p l2 ∅ := by
      unfold intersectAt
      by_cases hsent : (cellAt p.cells l2).card = 1 ∧
          value? (cellAt p.cells l2) = some "*"
      · simp [hsent]
      · simp [hsent]
    have happly : applyC (.regionSymbols [l2] ∅) s =
        .ok ([.regionSymbols [l2] ∅], techFilterSolution [l2] ∅ s) := by
      have hnossub : ¬ (syms ⊂ (∅ : SymbolSet)) := Finset.not_ssubset_empty syms
      simp [applyC, applyRegionSymbols, hsol, hsym, symbolsTruthy, hcard,
        techEmpty, techFilterFromPuzzle, techSolo, hnossub]
    have hfs : techFilterSolution [l2] ∅ s =
        withSolution s (setCell p l2 ∅).1 := by
      simp [techFilterSolution, hsol, intersectThroughout, hinter]
    refine ⟨(setCell p l2 ∅).1, by rw [happly, hfs], ?_⟩
    by_cases hchg : (∅ : SymbolSet) = cellAt p.cells l2
    · rw [setCell_of_eq p l2 ∅ hchg]
      exact hchg.symm
    · rw [setCell_of_ne p l2 ∅ hchg]
      exact cellAt_setAt_self p.cells l2 ∅ hr hc

theorem lookup_cons (x a : Nat) (b : Loc) (rest : List (Nat × Loc)) :
    List.lookup x ((a, b) :: rest) = if x = a then some b else List.lookup x rest := by
  by_cases h : x = a
  · subst h
    simp [List.lookup]
  · rw [if_neg h]
    show (match x == a with
      | true => some b
      | false => List.lookup x rest) = _
    rw [beq_eq_false_iff_ne.mpr h]

theorem lookup_map_replace (idx : List (Nat × Loc)) (k : Nat) (l : Loc)
    (k' : Nat) :
    (idx.map fun e => (e.1, if e.1 = k then l else e.2)).lookup k' =
      if k' = k then (if idx.any (fun e => decide (e.1 = k)) then some l else none)
      else idx.lookup k' := by
  induction idx with
  | nil => by_cases h : k' = k <;> simp [h, List.lookup]
  | cons a rest ih =>
    obtain ⟨ka, va⟩ := a
    simp only [List.map_cons, List.any_cons]
    rw [lookup_cons, lookup_cons]
    by_cases hk' : k' = ka
    · subst hk'
      rw [if_pos rfl, if_pos rfl]
      by_cases hak : k' = k
      · rw [if_pos hak, if_pos hak]
        simp [hak]
      · rw [if_neg hak, if_neg fun h => hak h]
    · rw [if_neg hk', if_neg hk', ih]
      by_cases hak : ka = k
      · have hkk : ¬ k' = k := fun h => hk' (h.trans hak.symm)
        rw [if_neg hkk, if_neg hkk]
      · simp only [decide_eq_false hak, Bool.false_or]

theorem lookup_append_single (idx : List (Nat × Loc)) (k : Nat) (l : Loc)
    (h : idx.any (fun e => decide (e.1 = k)) = false) (k' : Nat) :
    (idx ++ [(k, l)]).lookup k' = if k' = k then some l else idx.lookup k' := by
  induction idx with
  | nil =>
    rw [List.nil_append, lookup_cons]
  | cons a rest ih =>
    obtain ⟨ka, va⟩ := a
    simp only [List.any_cons, Bool.or_eq_false_iff] at h
    have hka : ¬ ka = k := by simpa using h.1
    simp only [List.cons_append]
    rw [lookup_cons, lookup_cons]
    by_cases hk' : k' = ka
    · subst hk'
      have hkk : ¬ k' = k := hka
      rw [if_pos rfl, if_neg hkk, if_pos rfl]
    · rw [if_neg hk', if_neg hk', ih h.2]

theorem lookup_updateIndex (idx : List (Nat × Loc)) (k : Nat) (l : Loc)
    (k' : Nat) :
    (updateIndex idx k l).lookup k' = if k' = k then some l else idx.lookup k' := by
  unfold updateIndex
  by_cases hany : idx.any (fun e => decide (e.1 = k))
  · rw [if_pos hany, lookup_map_replace]
    by_cases hk : k' = k <;> simp [hk, hany]
  · rw [if_neg hany, lookup_append_single idx k l (Bool.eq_false_iff.mpr hany)]

theorem mem_keys_updateIndex (idx : List (Nat × Loc)) (k : Nat) (l : Loc)
    (k' : Nat) :
    k' ∈ (updateIndex idx k l).map Prod.fst ↔
      k' = k ∨ k' ∈ idx.map Prod.fst := by
  unfold updateIndex
  by_cases hany : idx.any (fun e => decide (e.1 = k))
  · rw [if_pos hany]
    have hkeys : (idx.map fun e => (e.1, if e.1 = k then l else e.2)).map Prod.fst =
        idx.map Prod.fst := by
      rw [List.map_map]
      exact List.map_congr_left fun e _ => rfl
    rw [hkeys]
    have hk : k ∈ idx.map Prod.fst := by
      obtain ⟨e, he, hbe⟩ := List.any_eq_true.mp hany
      have : e.1 = k := by simpa using hbe
      exact this ▸ List.mem_map_of_mem Prod.fst he
    constructor
    · exact Or.inr
    · rintro (rfl | hmem)
      · exact hk
      · exact hmem
  · rw [if_neg hany]
    simp [or_comm]

theorem foldIdx_append (f : Loc → Nat) (L : List Loc) (x : Loc) :
    foldIdx f (L ++ [x]) =
      if f x > 1 then updateIndex (foldIdx f L) (f x) x else foldIdx f L := by
  simp [foldIdx, List.foldl_append]

theorem foldIdx_lookup (f : Loc → Nat) (L : List Loc) (k : Nat) :
    (foldIdx f L).lookup k =
      if 2 ≤ k then (L.filter (fun l => f l == k)).getLast? else none := by
  induction L using List.reverseRecOn with
  | nil => by_cases h2 : 2 ≤ k <;> simp [foldIdx, List.lookup, h2]
  | append_singleton L x ih =>
    rw [foldIdx_append]
    by_cases hx : f x > 1
    · rw [if_pos hx, lookup_updateIndex]
      by_cases hk : k = f x
      · subst hk
        rw [if_pos rfl]
        have h2 : 2 ≤ f x := by omega
        rw [if_pos h2, List.filter_append]
        simp
      · rw [if_neg hk, ih]
        by_cases h2 : 2 ≤ k
        · have hxk : (f x == k) = false := by simpa using fun hh => hk hh.symm
          simp [h2, List.filter_append, hxk]
        · simp [h2]
    · rw [if_neg hx, ih]
      by_cases h2 : 2 ≤ k
      · have hxk : (f x == k) = false := by
          simp only [beq_eq_false_iff_ne, ne_eq]
          omega
        simp [h2, List.filter_append, hxk]
      · simp [h2]

theorem foldIdx_mem_keys (f : Loc → Nat) (L : List Loc) (k : Nat) :
    k ∈ (foldIdx f L).map Prod.fst ↔ ∃ l ∈ L, f l = k ∧ 2 ≤ k := by
  induction L using List.reverseRecOn with
  | nil => simp [foldIdx]
  | append_singleton L x ih =>
    rw [foldIdx_append]
    by_cases hx : f x > 1
    · rw [if_pos hx, mem_keys_updateIndex, ih]
      constructor
      · rintro (rfl | ⟨l, hl, rfl, h2⟩)
        · exact ⟨x, by simp, rfl, by omega⟩
        · exact ⟨l, by simp [hl], rfl, h2⟩
      · rintro ⟨l, hl, rfl, h2⟩
        rcases List.mem_append.mp hl with hl | hl
        · exact Or.inr ⟨l, hl, rfl, h2⟩
        · obtain rfl : l = x := by simpa using hl
          exact Or.inl rfl
    · rw [if_neg hx, ih]
      constructor
      · rintro ⟨l, hl, rfl, h2⟩
        exact ⟨l, by simp [hl], rfl, h2⟩
      · rintro ⟨l, hl, rfl, h2⟩
        rcases List.mem_append.mp hl with hl | hl
        · exact ⟨l, hl, rfl, h2⟩
        · obtain rfl : l = x := by simpa using hl
          omega

theorem exceptBind_ok {α β : Type} (a : α) (f : α → Except Unit β) :
    (Except.ok a >>= f) = f a := rfl

theorem exceptBind_error {α β : Type} (e : Unit) (f : α → Except Unit β) :
    ((Except.error e : Except Unit α) >>= f) = .error e := rfl

theorem setCell_preserves (p : Placements) (l : Loc) (v : SymbolSet)
    (h : (setCell p l v).1.changed = false) : (setCell p l v).1 = p := by
  by_cases hc : v = cellAt p.cells l
  · rw [setCell_of_eq p l v hc]
  · rw [setCell_of_ne p l v hc] at h
    simp at h

theorem foldSetCell_preserves (syms : SymbolSet) (region : List Loc) :
    ∀ p : Placements,
      (region.foldl (fun q l => (setCell q l syms).1) p).changed = false →
      region.foldl (fun q l => (setCell q l syms).1) p = p := by
  induction region with
  | nil => intro p _; rfl
  | cons l rest ih =>
    intro p h
    simp only [List.foldl_cons] at h ⊢
    have h1 := ih (setCell p l syms).1 h
    rw [h1] at h ⊢
    exact setCell_preserves p l syms h

theorem eliminateAt_preserves (p : Placements) (l : Loc) (syms : SymbolSet)
    (p' : Placements) (b : Bool) (h : eliminateAt p l syms = .ok (p', b))
    (hch : p'.changed = false) : p' = p := by
  unfold eliminateAt at h
  by_cases hcond : (cellAt p.cells l).card = 1 ∧
      value? (cellAt p.cells l) = some "*"
  · simp [hcond] at h
  · simp only [if_neg hcond, Except.ok.injEq] at h
    obtain rfl : p' = (setCell p l (cellAt p.cells l \ syms)).1 := by rw [h]
    exact setCell_preserves p l _ hch

theorem eliminateThroughout_preserves (syms : SymbolSet) (locs : List Loc) :
    ∀ (p p' : Placements) (ls : List Loc),
      eliminateThroughout p locs syms = .ok (p', ls) →
      p'.changed = false → p' = p := by
  induction locs with
  | nil =>
    intro p p' ls h _
    simp only [eliminateThroughout, Except.ok.injEq, Prod.mk.injEq] at h
    exact h.1.symm
  | cons l rest ih =>
    intro p p' ls h hch
    simp only [eliminateThroughout] at h
    cases he : eliminateAt p l syms with
    | error e =>
      rw [he, exceptBind_error] at h
      exact Except.noConfusion h
    | ok pb =>
      obtain ⟨p1, b⟩ := pb
      rw [he, exceptBind_ok] at h
      cases ht : eliminateThroughout p1 rest syms with
      | error e =>
        rw [ht, exceptBind_error] at h
        exact Except.noConfusion h
      | ok prest =>
        obtain ⟨p2, ls2⟩ := prest
        rw [ht, exceptBind_ok] at h
        simp only [Except.ok.injEq, Prod.mk.injEq] at h
        obtain ⟨h1, _⟩ := h
        rw [← h1] at hch ⊢
        have h2 := ih p1 p2 ls2 ht hch
        rw [h2] at hch ⊢
        exact eliminateAt_preserves p l syms p1 b he hch

theorem intersectAt_preserves (p : Placements) (l : Loc) (syms : SymbolSet)
    (h : (intersectAt p l syms).1.changed = false) : (intersectAt p l syms).1 = p :=
  setCell_preserves p l _ h

theorem intersectThroughout_preserves (syms : SymbolSet) (locs : List Loc) :
    ∀ p : Placements, (intersectThroughout p locs syms).1.changed = false →
      (intersectThroughout p locs syms).1 = p := by
  induction locs with
  | nil => intro p _; rfl
  | cons l rest ih =>
    intro p h
    simp only [intersectThroughout] at h ⊢
    have h1 := ih (intersectAt p l syms).1 h
    rw [h1] at h ⊢
    exact intersectAt_preserves p l syms h

theorem solutionChanged_withSolution (s : PuzzleState) (q : Placements) :
    solutionChanged (withSolution s q) = q.changed := rfl

theorem withSolution_self (s : PuzzleState) (p : Placements)
    (h : s.solution = some p) : withSolution s p = s := by
  cases s
  simp only [withSolution]
  simp_all

theorem chain_preserves {s s1 s2 : PuzzleState}
    (h1 : solutionChanged s1 = false → s1 = s)
    (h2 : solutionChanged s2 = false → s2 = s1)
    (h : solutionChanged s2 = false) : s2 = s := by
  have e2 := h2 h
  have : solutionChanged s1 = false := by rw [← e2]; exact h
  exact e2.trans (h1 this)

theorem techFilterSolution_preserves (r : List Loc) (sy : SymbolSet)
    (s s2 : PuzzleState) (hdef : techFilterSolution r sy s = s2)
    (h : solutionChanged s2 = false) : s2 = s := by
  unfold techFilterSolution at hdef
  split at hdef
  next p heq =>
    rw [← hdef] at h ⊢
    rw [solutionChanged_withSolution] at h
    rw [intersectThroughout_preserves sy r p h]
    exact withSolution_self s p heq
  next heq =>
    exact hdef.symm

theorem techSolo_preserves (r : List Loc) (sy : SymbolSet) (s : PuzzleState)
    (os : Option (List Constraint) × PuzzleState) (hdef : techSolo r sy s = os)
    (h : solutionChanged os.2 = false) : os.2 = s := by
  unfold techSolo at hdef
  split at hdef
  next p heq =>
    split at hdef
    next hc =>
      rw [← hdef] at h ⊢
      have h2 : (r.foldl (fun q l => (setCell q l sy).1) p).changed = false := h
      show withSolution s (r.foldl (fun q l => (setCell q l sy).1) p) = s
      rw [foldSetCell_preserves sy r p h2]
      exact withSolution_self s p heq
    next hc =>
      rw [← hdef]
  next heq =>
    rw [← hdef]

theorem techPartition_preserves (r : List Loc) (sy : SymbolSet)
    (s : PuzzleState) (res : Option (List Constraint)) (s2 : PuzzleState)
    (h : techPartition r sy s = .ok (res, s2))
    (hch : solutionChanged s2 = false) : s2 = s := by
  unfold techPartition at h
  split at h
  next p heq =>
    split at h
    next hf =>
      simp only [Except.ok.injEq, Prod.mk.injEq] at h
      exact h.2.symm
    next subset coordList hf =>
      cases hm1 : mkRegionPermutes (regionSubtract r coordList) (sy \ subset) with
      | error e =>
        rw [hm1, exceptBind_error] at h
        exact Except.noConfusion h
      | ok rem =>
        rw [hm1, exceptBind_ok] at h
        cases hm2 : mkRegionPermutes coordList subset with
        | error e =>
          rw [hm2, exceptBind_error] at h
          exact Except.noConfusion h
        | ok lim =>
          rw [hm2, exceptBind_ok] at h
          cases he : eliminateThroughout p (regionSubtract r coordList) subset with
          | error e =>
            rw [he, exceptBind_error] at h
            exact Except.noConfusion h
          | ok pp =>
            obtain ⟨p2, ls⟩ := pp
            rw [he, exceptBind_ok] at h
            have h2 : (Except.ok (some [lim, rem], withSolution s p2) :
                Except Unit (Option (List Constraint) × PuzzleState)) =
                .ok (res, s2) := h
            simp only [Except.ok.injEq, Prod.mk.injEq] at h2
            obtain ⟨_, h3⟩ := h2
            rw [← h3] at hch ⊢
            rw [solutionChanged_withSolution] at hch
            rw [eliminateThroughout_preserves subset _ p p2 ls he hch]
            exact withSolution_self s p heq
  next heq =>
    simp only [Except.ok.injEq, Prod.mk.injEq] at h
    exact h.2.symm

theorem techMisfit_preserves (r : List Loc) (sy : SymbolSet) (s : PuzzleState)
    (res : Option (List Constraint)) (s2 : PuzzleState)
    (h : techMisfit r sy s = .ok (res, s2))
    (hch : solutionChanged s2 = false) : s2 = s := by
  unfold techMisfit at h
  split at h
  next p heq =>
    split at h
    next hf =>
      simp only [Except.ok.injEq, Prod.mk.injEq] at h
      exact h.2.symm
    next sym locs hf =>
      cases hm : mkRegionPermutes (regionSubtract r locs) (sy \ {sym}) with
      | error e =>
        rw [hm, exceptBind_error] at h
        exact Except.noConfusion h
      | ok rem =>
        rw [hm, exceptBind_ok] at h
        have h2 : (Except.ok (some [rem],
            withSolution s (setCell p (locs.headD (0, 0)) {sym}).1) :
            Except Unit (Option (List Constraint) × PuzzleState)) =
            .ok (res, s2) := h
        simp only [Except.ok.injEq, Prod.mk.injEq] at h2
        obtain ⟨_, h3⟩ := h2
        rw [← h3] at hch ⊢
        rw [solutionChanged_withSolution] at hch
        rw [setCell_preserves p (locs.headD (0, 0)) {sym} hch]
        exact withSolution_self s p heq
  next heq =>
    simp only [Except.ok.injEq, Prod.mk.injEq] at h
    exact h.2.symm

theorem borrowGo_preserves (r : List Loc) (sy : SymbolSet) (s : PuzzleState) :
    ∀ (cs : List Constraint) (res : Option (List Constraint)) (s2 : PuzzleState),
      borrowGo r sy s cs = .ok (res, s2) → solutionChanged s2 = false →
      s2 = s := by
  intro cs
  induction cs with
  | nil =>
    intro res s2 h _
    simp only [borrowGo, Except.ok.injEq, Prod.mk.injEq] at h
    exact h.2.symm
  | cons c rest ih =>
    intro res s2 h hch
    cases c with
    | regionPermutes r2 sy2 =>
      simp only [borrowGo] at h
      split at h
      next hsub =>
        split at h
        next p heq =>
          cases hm : mkRegionPermutes (regionSubtract r r2) (sy \ sy2) with
          | error e =>
            rw [hm, exceptBind_error] at h
            exact Except.noConfusion h
          | ok rem =>
            rw [hm, exceptBind_ok] at h
            cases he : eliminateThroughout p (regionSubtract r r2) sy2 with
            | error e =>
              rw [he, exceptBind_error] at h
              exact Except.noConfusion h
            | ok pp =>
              obtain ⟨p2, ls⟩ := pp
              rw [he, exceptBind_ok] at h
              have h2 : (Except.ok (some [rem], withSolution s p2) :
                  Except Unit (Option (List Constraint) × PuzzleState)) =
                  .ok (res, s2) := h
              simp only [Except.ok.injEq, Prod.mk.injEq] at h2
              obtain ⟨_, h3⟩ := h2
              rw [← h3] at hch ⊢
              rw [solutionChanged_withSolution] at hch
              rw [eliminateThroughout_preserves sy2 _ p p2 ls he hch]
              exact withSolution_self s p heq
        next heq =>
          exact Except.noConfusion h
      next hsub =>
        exact ih res s2 h hch
    | regionSymbols r2 sy2 => exact ih res s2 h hch
    | regionIsCompletePermutation r2 => exact ih res s2 h hch
    | regionsAreCompletePermutation rs => exact ih res s2 h hch

theorem intersectionGo_preserves (r : List Loc) (sy : SymbolSet)
    (s : PuzzleState) :
    ∀ (cs : List Constraint) (res : Option (List Constraint)) (s2 : PuzzleState),
      intersectionGo r sy s cs = .ok (res, s2) → solutionChanged s2 = false →
      s2 = s := by
  intro cs
  induction cs with
  | nil =>
    intro res s2 h _
    simp only [intersectionGo, Except.ok.injEq, Prod.mk.injEq] at h
    exact h.2.symm
  | cons c rest ih =>
    intro res s2 h hch
    cases c with
    | regionPermutes r2 sy2 =>
      simp only [intersectionGo] at h
      split at h
      next hne =>
        split at h
        next hcond =>
          split at h
          next p heq =>
            split at h
            next sym locs hf =>
              cases he : eliminateThroughout p
                  (regionSubtract r (regionIntersect r r2)) {sym} with
              | error e =>
                rw [he, exceptBind_error] at h
                exact Except.noConfusion h
              | ok pp =>
                obtain ⟨p2, ls⟩ := pp
                rw [he, exceptBind_ok] at h
                cases hm : mkRegionPermutes r sy with
                | error e =>
                  rw [hm, exceptBind_error] at h
                  exact Except.noConfusion h
                | ok cpy =>
                  rw [hm, exceptBind_ok] at h
                  have h2 : (Except.ok (some [cpy], withSolution s p2) :
                      Except Unit (Option (List Constraint) × PuzzleState)) =
                      .ok (res, s2) := h
                  simp only [Except.ok.injEq, Prod.mk.injEq] at h2
                  obtain ⟨_, h3⟩ := h2
                  rw [← h3] at hch ⊢
                  rw [solutionChanged_withSolution] at hch
                  rw [eliminateThroughout_preserves _ _ p p2 ls he hch]
                  exact withSolution_self s p heq
            next hf =>
              exact ih res s2 h hch
          next heq =>
            exact Except.noConfusion h
        next hcond =>
          exact ih res s2 h hch
      next hne =>
        exact ih res s2 h hch
    | regionSymbols r2 sy2 => exact ih res s2 h hch
    | regionIsCompletePermutation r2 => exact ih res s2 h hch
    | regionsAreCompletePermutation rs => exact ih res s2 h hch

theorem applyRegionSymbols_preserves (r : List Loc) (sy : SymbolSet)
    (s : PuzzleState) (cs : List Constraint) (s2 : PuzzleState)
    (h : applyRegionSymbols r sy s = .ok (cs, s2))
    (hch : solutionChanged s2 = false) : s2 = s := by
  unfold applyRegionSymbols at h
  split at h
  next hgate =>
    split at h
    next tr hemp =>
      simp only [Except.ok.injEq, Prod.mk.injEq] at h
      exact h.2.symm
    next hemp =>
      split at h
      next tr hfp =>
        simp only [Except.ok.injEq, Prod.mk.injEq] at h
        exact h.2.symm
      next hfp =>
        split at h
        next tr st hsolo =>
          simp only [Except.ok.injEq, Prod.mk.injEq] at h
          rw [← h.2] at hch ⊢
          exact techSolo_preserves r sy s (some tr, st) hsolo hch
        next st hsolo =>
          simp only [Except.ok.injEq, Prod.mk.injEq] at h
          rw [← h.2] at hch ⊢
          have h2 := techFilterSolution_preserves r sy st _ rfl hch
          rw [h2] at hch ⊢
          exact techSolo_preserves r sy s (none, st) hsolo hch
  next hgate =>
    simp only [Except.ok.injEq, Prod.mk.injEq] at h
    exact h.2.symm

theorem applyRegionPermutes_preserves (r : List Loc) (sy : SymbolSet)
    (s : PuzzleState) (cs : List Constraint) (s2 : PuzzleState)
    (h : applyRegionPermutes r sy s = .ok (cs, s2))
    (hch : solutionChanged s2 = false) : s2 = s := by
  unfold applyRegionPermutes at h
  split at h
  next hgate =>
    split at h
    next tr hemp =>
      simp only [Except.ok.injEq, Prod.mk.injEq] at h
      exact h.2.symm
    next hemp =>
      split at h
      next tr hfp =>
        simp only [Except.ok.injEq, Prod.mk.injEq] at h
        exact h.2.symm
      next hfp =>
        split at h
        next tr st hsolo =>
          simp only [Except.ok.injEq, Prod.mk.injEq] at h
          rw [← h.2] at hch ⊢
          exact techSolo_preserves r sy s (some tr, st) hsolo hch
        next st hsolo =>
          cases hp : techPartition r sy (techFilterSolution r sy st) with
          | error e =>
            rw [hp, exceptBind_error] at h
            exact Except.noConfusion h
          | ok pr =>
            obtain ⟨pres, pst⟩ := pr
            rw [hp, exceptBind_ok] at h
            have hpp : ∀ s3, solutionChanged s3 = false → s3 = pst → s3 = s := by
              intro s3 hc3 he3
              subst he3
              have e1 := techPartition_preserves r sy (techFilterSolution r sy st)
                pres s3 hp hc3
              have e2 := techFilterSolution_preserves r sy st _ rfl
                (by rw [← e1]; exact hc3)
              have e3 := techSolo_preserves r sy s (none, st) hsolo
                (by rw [← e2, ← e1]; exact hc3)
              rw [e1, e2]
              exact e3
            cases pres with
            | some tr =>
              have h2 : (Except.ok (tr, pst) :
                  Except Unit (List Constraint × PuzzleState)) = .ok (cs, s2) := h
              simp only [Except.ok.injEq, Prod.mk.injEq] at h2
              rw [← h2.2] at hch ⊢
              exact hpp pst hch rfl
            | none =>
              cases hm : techMisfit r sy pst with
              | error e =>
                have h2 : (techMisfit r sy pst >>= fun mr =>
                    match mr.1 with
                    | some r2 => Except.ok (r2, mr.2)
                    | none => do
                      let br ← techBorrow r sy mr.2
                      match br.1 with
                      | some r2 => Except.ok (r2, br.2)
                      | none => do
                        let ir ← techIntersection r sy br.2
                        match ir.1 with
                        | some r2 => Except.ok (r2, ir.2)
                        | none => Except.ok ([.regionPermutes r sy], ir.2)) =
                    .ok (cs, s2) := h
                rw [hm, exceptBind_error] at h2
                exact Except.noConfusion h2
              | ok mr =>
                obtain ⟨mres, mst⟩ := mr
                have h2 : (techMisfit r sy pst >>= fun mr =>
                    match mr.1 with
                    | some r2 => Except.ok (r2, mr.2)
                    | none => do
                      let br ← techBorrow r sy mr.2
                      match br.1 with
                      | some r2 => Except.ok (r2, br.2)
                      | none => do
                        let ir ← techIntersection r sy br.2
                        match ir.1 with
                        | some r2 => Except.ok (r2, ir.2)
                        | none => Except.ok ([.regionPermutes r sy], ir.2)) =
                    .ok (cs, s2) := h
                rw [hm, exceptBind_ok] at h2
                have hmm : ∀ s3, solutionChanged s3 = false → s3 = mst → s3 = s := by
                  intro s3 hc3 he3
                  subst he3
                  have e1 := techMisfit_preserves r sy pst mres s3 hm hc3
                  rw [e1]
                  exact hpp pst (by rw [← e1]; exact hc3) rfl
                cases mres with
                | some tr =>
                  have h3 : (Except.ok (tr, mst) :
                      Except Unit (List Constraint × PuzzleState)) = .ok (cs, s2) := h2
                  simp only [Except.ok.injEq, Prod.mk.injEq] at h3
                  rw [← h3.2] at hch ⊢
                  exact hmm mst hch rfl
                | none =>
                  cases hb : techBorrow r sy mst with
                  | error e =>
                    have h3 : (techBorrow r sy mst >>= fun br =>
                        match br.1 with
                        | some r2 => Except.ok (r2, br.2)
                        | none => do
                          let ir ← techIntersection r sy br.2
                          match ir.1 with
                          | some r2 => Except.ok (r2, ir.2)
                          | none => Except.ok ([.regionPermutes r sy], ir.2)) =
                        .ok (cs, s2) := h2
                    rw [hb, exceptBind_error] at h3
                    exact Except.noConfusion h3
                  | ok br =>
                    obtain ⟨bres, bst⟩ := br
                    have h3 : (techBorrow r sy mst >>= fun br =>
                        match br.1 with
                        | some r2 => Except.ok (r2, br.2)
                        | none => do
                          let ir ← techIntersection r sy br.2
                          match ir.1 with
                          | some r2 => Except.ok (r2, ir.2)
                          | none => Except.ok ([.regionPermutes r sy], ir.2)) =
                        .ok (cs, s2) := h2
                    rw [hb, exceptBind_ok] at h3
                    have hbb : ∀ s3, solutionChanged s3 = false → s3 = bst →
                        s3 = s := by
                      intro s3 hc3 he3
                      subst he3
                      have e1 := borrowGo_preserves r sy mst mst.constraints bres
                        s3 hb hc3
                      rw [e1]
                      exact hmm mst (by rw [← e1]; exact hc3) rfl
                    cases bres with
                    | some tr =>
                      have h4 : (Except.ok (tr, bst) :
                          Except Unit (List Constraint × PuzzleState)) =
                          .ok (cs, s2) := h3
                      simp only [Except.ok.injEq, Prod.mk.injEq] at h4
                      rw [← h4.2] at hch ⊢
                      exact hbb bst hch rfl
                    | none =>
                      cases hi : techIntersection r sy bst with
                      | error e =>
                        have h4 : (techIntersection r sy bst >>= fun ir =>
                            match ir.1 with
                            | some r2 => Except.ok (r2, ir.2)
                            | none => Except.ok ([.regionPermutes r sy], ir.2)) =
                            .ok (cs, s2) := h3
                        rw [hi, exceptBind_error] at h4
                        exact Except.noConfusion h4
                      | ok ir =>
                        obtain ⟨ires, ist⟩ := ir
                        have h4 : (techIntersection r sy bst >>= fun ir =>
                            match ir.1 with
                            | some r2 => Except.ok (r2, ir.2)
                            | none => Except.ok ([.regionPermutes r sy], ir.2)) =
                            .ok (cs, s2) := h3
                        rw [hi, exceptBind_ok] at h4
                        have hii : ∀ s3, solutionChanged s3 = false → s3 = ist →
                            s3 = s := by
                          intro s3 hc3 he3
                          subst he3
                          have e1 := intersectionGo_preserves r sy bst
                            bst.constraints ires s3 hi hc3
                          rw [e1]
                          exact hbb bst (by rw [← e1]; exact hc3) rfl
                        cases ires with
                        | some tr =>
                          have h5 : (Except.ok (tr, ist) :
                              Except Unit (List Constraint × PuzzleState)) =
                              .ok (cs, s2) := h4
                          simp only [Except.ok.injEq, Prod.mk.injEq] at h5
                          rw [← h5.2] at hch ⊢
                          exact hii ist hch rfl
                        | none =>
                          have h5 : (Except.ok ([.regionPermutes r sy], ist) :
                              Except Unit (List Constraint × PuzzleState)) =
                              .ok (cs, s2) := h4
                          simp only [Except.ok.injEq, Prod.mk.injEq] at h5
                          rw [← h5.2] at hch ⊢
                          exact hii ist hch rfl
  next hgate =>
    simp only [Except.ok.injEq, Prod.mk.injEq] at h
    exact h.2.symm

theorem applyC_preserves (c : Constraint) (s : PuzzleState)
    (cs : List Constraint) (s2 : PuzzleState)
    (h : applyC c s = .ok (cs, s2))
    (hch : solutionChanged s2 = false) : s2 = s := by
  cases c with
  | regionSymbols r sy => exact applyRegionSymbols_preserves r sy s cs s2 h hch
  | regionPermutes r sy => exact applyRegionPermutes_preserves r sy s cs s2 h hch
  | regionIsCompletePermutation r =>
    simp only [applyC] at h
    split at h
    next ps heq =>
      split at h
      next hc =>
        cases hm : mkRegionPermutes r ps with
        | error e =>
          rw [hm, exceptBind_error] at h
          exact Except.noConfusion h
        | ok c2 =>
          rw [hm, exceptBind_ok] at h
          have h2 : (Except.ok ([c2], s) :
              Except Unit (List Constraint × PuzzleState)) = .ok (cs, s2) := h
          simp only [Except.ok.injEq, Prod.mk.injEq] at h2
          exact h2.2.symm
      next hc =>
        simp only [Except.ok.injEq, Prod.mk.injEq] at h
        exact h.2.symm
    next heq =>
      simp only [Except.ok.injEq, Prod.mk.injEq] at h
      exact h.2.symm
  | regionsAreCompletePermutation rs =>
    simp only [applyC, Except.ok.injEq, Prod.mk.injEq] at h
    exact h.2.symm

theorem applyPass_preserves (cs : List Constraint) :
    ∀ (s : PuzzleState) (ncs : List Constraint) (cc : Bool) (s2 : PuzzleState),
      applyPass cs s = .ok (ncs, cc, s2) → solutionChanged s2 = false →
      s2 = s := by
  induction cs with
  | nil =>
    intro s ncs cc s2 h _
    simp only [applyPass, Except.ok.injEq, Prod.mk.injEq] at h
    exact h.2.2.symm
  | cons c rest ih =>
    intro s ncs cc s2 h hch
    simp only [applyPass] at h
    cases ha : applyC c s with
    | error e =>
      rw [ha, exceptBind_error] at h
      exact Except.noConfusion h
    | ok cr =>
      rw [ha, exceptBind_ok] at h
      have h2 : (applyPass rest cr.2 >>= fun pr =>
          Except.ok ((if cr.1.isEmpty then pr.1 else cr.1 ++ pr.1),
            (decide (cr.1 ≠ [c]) || pr.2.1), pr.2.2)) = .ok (ncs, cc, s2) := h
      cases hp : applyPass rest cr.2 with
      | error e =>
        rw [hp, exceptBind_error] at h2
        exact Except.noConfusion h2
      | ok pr =>
        rw [hp, exceptBind_ok] at h2
        have h3 : (Except.ok ((if cr.1.isEmpty then pr.1 else cr.1 ++ pr.1),
            (decide (cr.1 ≠ [c]) || pr.2.1), pr.2.2) :
            Except Unit (List Constraint × Bool × PuzzleState)) =
            .ok (ncs, cc, s2) := h2
        simp only [Except.ok.injEq, Prod.mk.injEq] at h3
        obtain ⟨-, -, hs2⟩ := h3
        rw [← hs2] at hch ⊢
        have e1 := ih cr.2 pr.1 pr.2.1 pr.2.2 hp hch
        rw [e1] at hch ⊢
        exact applyC_preserves c s cr.1 cr.2 ha hch

theorem applyPass_ncs (cs : List Constraint) :
    ∀ (s : PuzzleState) (ncs : List Constraint) (cc : Bool) (s2 : PuzzleState),
      applyPass cs s = .ok (ncs, cc, s2) → cc = false → ncs = cs := by
  induction cs with
  | nil =>
    intro s ncs cc s2 h _
    simp only [applyPass, Except.ok.injEq, Prod.mk.injEq] at h
    exact h.1.symm
  | cons c rest ih =>
    intro s ncs cc s2 h hcc
    simp only [applyPass] at h
    cases ha : applyC c s with
    | error e =>
      rw [ha, exceptBind_error] at h
      exact Except.noConfusion h
    | ok cr =>
      rw [ha, exceptBind_ok] at h
      have h2 : (applyPass rest cr.2 >>= fun pr =>
          Except.ok ((if cr.1.isEmpty then pr.1 else cr.1 ++ pr.1),
            (decide (cr.1 ≠ [c]) || pr.2.1), pr.2.2)) = .ok (ncs, cc, s2) := h
      cases hp : applyPass rest cr.2 with
      | error e =>
        rw [hp, exceptBind_error] at h2
        exact Except.noConfusion h2
      | ok pr =>
        rw [hp, exceptBind_ok] at h2
        have h3 : (Except.ok ((if cr.1.isEmpty then pr.1 else cr.1 ++ pr.1),
            (decide (cr.1 ≠ [c]) || pr.2.1), pr.2.2) :
            Except Unit (List Constraint × Bool × PuzzleState)) =
            .ok (ncs, cc, s2) := h2
        simp only [Except.ok.injEq, Prod.mk.injEq] at h3
        obtain ⟨hn, hc, -⟩ := h3
        rw [← hc] at hcc
        have hor := Bool.or_eq_false_iff.mp hcc
        have hceq : cr.1 = [c] := by simpa using hor.1
        have hrest := ih cr.2 pr.1 pr.2.1 pr.2.2 hp hor.2
        rw [← hn, hceq, hrest]
        simp

theorem expandFold_preserves (syms : SymbolSet) (locs : List Loc) :
    ∀ (p q : Placements),
      locs.foldlM (fun q l => do
        let v ← valueE (cellAt q.cells l)
        if v = "*" then pure (setCell q l syms).1 else pure q) p = .ok q →
      q.changed = false → q = p := by
  induction locs with
  | nil =>
    intro p q h _
    simp only [List.foldlM_nil] at h
    injection h with h
    exact h.symm
  | cons l rest ih =>
    intro p q h hch
    rw [List.foldlM_cons] at h
    have h2 : ((valueE (cellAt p.cells l) >>= fun v =>
        if v = "*" then pure (setCell p l syms).1 else pure p) >>=
        fun p1 => rest.foldlM (fun q l => do
          let v ← valueE (cellAt q.cells l)
          if v = "*" then pure (setCell q l syms).1 else pure q) p1) =
        .ok q := h
    cases hv : valueE (cellAt p.cells l) with
    | error e =>
      rw [hv, exceptBind_error, exceptBind_error] at h2
      exact Except.noConfusion h2
    | ok v =>
      rw [hv, exceptBind_ok] at h2
      by_cases hstar : v = "*"
      · subst hstar
        have h3 : rest.foldlM (fun q l => do
            let v ← valueE (cellAt q.cells l)
            if v = "*" then pure (setCell q l syms).1 else pure q)
            (setCell p l syms).1 = .ok q := h2
        have e1 := ih (setCell p l syms).1 q h3 hch
        have e2 := setCell_preserves p l syms (e1 ▸ hch)
        exact e1.trans e2
      · simp only [if_neg hstar] at h2
        have h3 : rest.foldlM (fun q l => do
            let v ← valueE (cellAt q.cells l)
            if v = "*" then pure (setCell q l syms).1 else pure q) p =
            .ok q := h2
        exact ih p q h3 hch

theorem expandStars_preserves (s s1 : PuzzleState)
    (h : expandStars s = .ok s1) (hch : solutionChanged s1 = false) :
    s1 = s := by
  unfold expandStars at h
  split at h
  next sz p syms heq1 heq2 heq3 =>
    split at h
    next hc =>
      cases hf : (colMajorLocs sz).foldlM (fun q l => do
          let v ← valueE (cellAt q.cells l)
          if v = "*" then pure (setCell q l syms).1 else pure q) p with
      | error e =>
        rw [hf, exceptBind_error] at h
        exact Except.noConfusion h
      | ok pv =>
        rw [hf, exceptBind_ok] at h
        have h2 : (Except.ok (withSolution s pv) : Except Unit PuzzleState) =
            .ok s1 := h
        injection h2 with h2
        rw [← h2] at hch ⊢
        rw [solutionChanged_withSolution] at hch
        rw [expandFold_preserves syms (colMajorLocs sz) p pv hf hch]
        exact withSolution_self s p heq2
    next hc =>
      injection h with h
      exact h.symm
  next heq =>
    injection h with h
    exact h.symm

theorem reduceAux_quiescent (s s2 : PuzzleState)
    (h : reduceAux s = .ok (s2, false)) : s2 = s := by
  unfold reduceAux at h
  cases he : expandStars s with
  | error e =>
    rw [he, exceptBind_error] at h
    exact Except.noConfusion h
  | ok s1 =>
    rw [he, exceptBind_ok] at h
    have h2 : (applyPass s1.constraints s1 >>= fun pr =>
        Except.ok ({ pr.2.2 with constraints := pr.1 },
          pr.2.1 || solutionChanged { pr.2.2 with constraints := pr.1 })) =
        .ok (s2, false) := h
    cases hp : applyPass s1.constraints s1 with
    | error e =>
      rw [hp, exceptBind_error] at h2
      exact Except.noConfusion h2
    | ok pr =>
      rw [hp, exceptBind_ok] at h2
      have h3 : (Except.ok ({ pr.2.2 with constraints := pr.1 },
          pr.2.1 || solutionChanged { pr.2.2 with constraints := pr.1 }) :
          Except Unit (PuzzleState × Bool)) = .ok (s2, false) := h2
      simp only [Except.ok.injEq, Prod.mk.injEq] at h3
      obtain ⟨hs2, hflag⟩ := h3
      have hor := Bool.or_eq_false_iff.mp hflag
      have hsc : solutionChanged pr.2.2 = false := hor.2
      have e1 := applyPass_preserves s1.constraints s1 pr.1 pr.2.1 pr.2.2 hp hsc
      have e2 := applyPass_ncs s1.constraints s1 pr.1 pr.2.1 pr.2.2 hp hor.1
      have e3 := expandStars_preserves s s1 he (by rw [← e1]; exact hsc)
      rw [← hs2, e2, e1, e3]

theorem clearChanged_idem (s : PuzzleState) :
    clearChanged (clearChanged s) = clearChanged s := by
  cases s with
  | mk sz sy sol cs =>
    cases sol with
    | none => rfl
    | some p => rfl

theorem clearChanged_constraints (s : PuzzleState) :
    (clearChanged s).constraints = s.constraints := by
  cases s with
  | mk sz sy sol cs =>
    cases sol with
    | none => rfl
    | some p => rfl

theorem clearChanged_cells (s : PuzzleState) :
    (clearChanged s).solution.map Placements.cells =
      s.solution.map Placements.cells := by
  cases s with
  | mk sz sy sol cs =>
    cases sol with
    | none => rfl
    | some p => rfl

/-- C2: the original claim is too strong, but a repaired version holds: a
`reduceConstraints` call that reports no change (returns `false`) has left
the constraint list and every grid cell unchanged (only the transient dirty
flag was cleared), and an immediately following call returns exactly the
same state and again reports no change, mutating nothing. -/
theorem reduceConstraints_quiescent_fixpoint (s s2 : PuzzleState)
    (h : reduceConstraints s = .ok (s2, false)) :
    s2.constraints = s.constraints ∧
    s2.solution.map Placements.cells = s.solution.map Placements.cells ∧
    reduceConstraints s2 = .ok (s2, false) := by
  have e := reduceAux_quiescent (clearChanged s) s2 h
  subst e
  refine ⟨clearChanged_constraints s, clearChanged_cells s, ?_⟩
  show reduceAux (clearChanged (clearChanged s)) = .ok (clearChanged s, false)
  rw [clearChanged_idem]
  exact h

/-- Witness for C2 at a concrete quiescent state: the alphabet is unknown,
so the single constraint defers and the pass reports no change. -/
theorem reduceConstraints_quiescent_fixpoint_witness :
    reduceConstraints quiescentState = .ok (quiescentAfter, false) ∧
    (quiescentAfter.constraints = quiescentState.constraints ∧
     quiescentAfter.solution.map Placements.cells =
       quiescentState.solution.map Placements.cells ∧
     reduceConstraints quiescentAfter = .ok (quiescentAfter, false)) :=
  ⟨by decide,
   reduceConstraints_quiescent_fixpoint quiescentState quiescentAfter
     (by decide)⟩

/-- C7: the cell `searchSolutionSpace` guesses on is, among all cells with
candidate-set size at least 2, the last coordinate in row-major scan order
whose candidate count equals the smallest such size — a deterministic
function of the grid state (both sides are functions of the grid; they are
`none` exactly when no cell has two or more candidates, where the source
raises `IndexError`). -/
theorem searchGuess_follows_spec (cells : List (List SymbolSet)) :
    guessLocation cells = guessLocationSpec cells := by
  have hkeys := foldIdx_mem_keys (fun l => (cellAt cells l).card)
    (allLocationsOf cells)
  have hlook := foldIdx_lookup (fun l => (cellAt cells l).card)
    (allLocationsOf cells)
  show (match ((foldIdx (fun l => (cellAt cells l).card)
        (allLocationsOf cells)).map Prod.fst).min? with
      | none => none
      | some k =>
        (foldIdx (fun l => (cellAt cells l).card) (allLocationsOf cells)).lookup k) =
    (match (((allLocationsOf cells).filter
          (fun l => decide (2 ≤ (cellAt cells l).card))).map
            (fun l => (cellAt cells l).card)).min? with
      | none => none
      | some m =>
        (((allLocationsOf cells).filter
          (fun l => decide (2 ≤ (cellAt cells l).card))).filter
            (fun l => (cellAt cells l).card == m)).getLast?)
  cases hmin : ((foldIdx (fun l => (cellAt cells l).card)
      (allLocationsOf cells)).map Prod.fst).min? with
  | none =>
    have hnil := List.min?_eq_none_iff.mp hmin
    have hcand : (allLocationsOf cells).filter
        (fun l => decide (2 ≤ (cellAt cells l).card)) = [] := by
      rw [List.eq_nil_iff_forall_not_mem]
      intro l hl
      rw [List.mem_filter] at hl
      have h2 : 2 ≤ (cellAt cells l).card := by simpa using hl.2
      have : (cellAt cells l).card ∈
          ((foldIdx (fun l => (cellAt cells l).card)
            (allLocationsOf cells)).map Prod.fst) :=
        (hkeys _).mpr ⟨l, hl.1, rfl, h2⟩
      rw [hnil] at this
      simp at this
    rw [hcand]
    rfl
  | some k =>
    obtain ⟨hkmem, hkbound⟩ := List.min?_eq_some_iff'.mp hmin
    obtain ⟨l0, hl0, hfl0, hk2⟩ := (hkeys k).mp hkmem
    have hminspec : (((allLocationsOf cells).filter
        (fun l => decide (2 ≤ (cellAt cells l).card))).map
          (fun l => (cellAt cells l).card)).min? = some k := by
      rw [List.min?_eq_some_iff']
      constructor
      · refine List.mem_map.mpr ⟨l0, ?_, hfl0⟩
        rw [List.mem_filter]
        exact ⟨hl0, by simpa using hfl0 ▸ hk2⟩
      · intro b hb
        obtain ⟨l', hl', rfl⟩ := List.mem_map.mp hb
        rw [List.mem_filter] at hl'
        exact hkbound _ ((hkeys _).mpr ⟨l', hl'.1, rfl, by simpa using hl'.2⟩)
    rw [hminspec]
    show (foldIdx (fun l => (cellAt cells l).card) (allLocationsOf cells)).lookup k =
      (((allLocationsOf cells).filter
        (fun l => decide (2 ≤ (cellAt cells l).card))).filter
          (fun l => (cellAt cells l).card == k)).getLast?
    rw [hlook k, if_pos hk2, List.filter_filter]
    congr 1
    refine List.filter_congr fun l hl => ?_
    by_cases he : (cellAt cells l).card = k
    · simp [he, hk2]
    · simp [he]

/-- Witness for `removeKnown_empty_inverses`: the `SumIs 10` cage of
`deadPairState` (determined `1`, partner `9` outside `{1, 2, 3}`). -/
theorem removeKnown_empty_inverses_witness :
    deadPairState.solution = some ⟨[[{"1"}, {"1", "2", "3"}]], false⟩ ∧
    inverseSet (mkSumIs [(0, 0), (0, 1)] 10) 1 ∩ {"1", "2", "3"} = ∅ ∧
    (removeKnown (mkSumIs [(0, 0), (0, 1)] 10) deadPairState =
        .ok (some [.baseC (.regionSymbols [(0, 1)] ∅)], deadPairState) ∧
      (∃ p', applyC (.regionSymbols [(0, 1)] ∅) deadPairState =
        .ok ([.regionSymbols [(0, 1)] ∅], withSolution deadPairState p') ∧
        cellAt p'.cells (0, 1) = ∅)) :=
  ⟨by decide, by decide,
    removeKnown_empty_inverses (mkSumIs [(0, 0), (0, 1)] 10) deadPairState
      ⟨[[{"1"}, {"1", "2", "3"}]], false⟩ {"1", "2", "3"} (0, 0) (0, 1) "1" 1
      (by decide) (by decide) (by decide) (by decide) (by decide) (by decide)
      (by decide) (by decide) (by decide) (by decide) (by decide)⟩

end Grids
